import Mathlib

/-!
Gregorian → Hijri conversion (`src/hijr/hijr.js`)

A shallow embedding of `hijriDate`: the date arithmetic (`HijriDate.toFixed`,
`gregorianToFixed`, `fixedToHijri`), the construction of `config` and the
month-name lookup of `HijriDate.toString`.

Numbers.  A JavaScript number is an IEEE 754 binary64 value: a finite number,
one of the two infinities, or NaN (`Double`).  A finite number is modelled by
the rational it denotes, and every arithmetic operation rounds its exact
result to the nearest representable number, ties to the even mantissa, with
gradual underflow and with overflow to an infinity (`Double.round`), as the
host does.  The one thing left out is the sign of zero: no operation of this
program can tell the two zeros apart (its divisors are non-zero literals).

The formulas of the spec are also given in exact integer arithmetic
(namespace `Exact`); on the ranges that the statements below carry, the
program agrees with them, and beyond those ranges it differs from them.
-/

/-! ## Rounding to binary64 -/

/-- The binary logarithm of `n`, rounded down, by halving at most `fuel`
times. -/
def log2Aux : ℕ → ℕ → ℕ
  | 0, _ => 0
  | fuel + 1, n => if n < 2 then 0 else log2Aux fuel (n / 2) + 1

/-- The binary logarithm of a natural number, rounded down (0 at 0). -/
def log2 (n : ℕ) : ℕ := log2Aux n n

/-- The exponent `e` with `2^e ≤ |x| < 2^(e+1)`, for `x ≠ 0`. -/
def binade (x : ℚ) : ℤ :=
  if (2 : ℚ) ^ ((log2 x.num.natAbs : ℤ) - (log2 x.den : ℤ)) ≤ |x|
  then (log2 x.num.natAbs : ℤ) - (log2 x.den : ℤ)
  else (log2 x.num.natAbs : ℤ) - (log2 x.den : ℤ) - 1

/-- The exponent of the unit in the last place of the binary64 numbers around
`x`: 52 below the exponent of `x`, and never below -1074 (gradual
underflow). -/
def ulpExponent (x : ℚ) : ℤ := max (binade x - 52) (-1074)

/-- Rounding to the nearest integer, a tie to the even one. -/
def roundHalfEven (t : ℚ) : ℤ :=
  if t - ⌊t⌋ < 1 / 2 then ⌊t⌋
  else if 1 / 2 < t - ⌊t⌋ then ⌊t⌋ + 1
  else if ⌊t⌋ % 2 = 0 then ⌊t⌋
  else ⌊t⌋ + 1

/-- Rounding of an exact result to the nearest multiple of the unit in the last
place, a tie to the even mantissa; the exponent is not yet bounded above. -/
def roundNearest (x : ℚ) : ℚ :=
  if x = 0 then 0
  else (roundHalfEven (x / (2 : ℚ) ^ ulpExponent x) : ℚ) * (2 : ℚ) ^ ulpExponent x

/-- The rationals that binary64 represents, but for the upper bound on the
magnitude: a mantissa of 53 bits times a power of two not below 2^-1074. -/
def isDouble (d : ℚ) : Prop :=
  ∃ m j : ℤ, |m| ≤ 2 ^ 53 ∧ -1074 ≤ j ∧ d = (m : ℚ) * (2 : ℚ) ^ j

/-- Rounding towards zero. -/
def truncate (t : ℚ) : ℤ := if 0 ≤ t then ⌊t⌋ else ⌈t⌉

/-- A JavaScript number: a finite number (the rational it denotes), an
infinity, or NaN. -/
inductive Double where
  | finite (q : ℚ)
  | posInf
  | negInf
  | nan
deriving DecidableEq, Repr

namespace Double

/-- Rounding of an exact result to a number: the nearest representable one,
and an infinity when that reaches 2^1024 in magnitude. -/
def round (x : ℚ) : Double :=
  if (2 : ℚ) ^ 1024 ≤ roundNearest x then posInf
  else if roundNearest x ≤ -(2 : ℚ) ^ 1024 then negInf
  else finite (roundNearest x)

/-- The rational that a finite number denotes (0 for an infinity and for NaN,
which have none). -/
def val : Double → ℚ
  | finite q => q
  | _ => 0

/-- The unary minus, which is exact. -/
def neg : Double → Double
  | finite q => finite (-q)
  | posInf => negInf
  | negInf => posInf
  | nan => nan

/-- The operator `+`. -/
def add : Double → Double → Double
  | finite x, finite y => round (x + y)
  | finite _, posInf => posInf
  | finite _, negInf => negInf
  | posInf, finite _ => posInf
  | posInf, posInf => posInf
  | negInf, finite _ => negInf
  | negInf, negInf => negInf
  | _, _ => nan

/-- The operator `*`. -/
def mul : Double → Double → Double
  | finite x, finite y => round (x * y)
  | finite x, posInf => if x = 0 then nan else if 0 < x then posInf else negInf
  | finite x, negInf => if x = 0 then nan else if 0 < x then negInf else posInf
  | posInf, finite y => if y = 0 then nan else if 0 < y then posInf else negInf
  | negInf, finite y => if y = 0 then nan else if 0 < y then negInf else posInf
  | posInf, posInf => posInf
  | posInf, negInf => negInf
  | negInf, posInf => negInf
  | negInf, negInf => posInf
  | _, _ => nan

/-- The operator `/`.  A zero divisor is taken as positive; the divisors of
the program are non-zero literals. -/
def div : Double → Double → Double
  | finite x, finite y =>
    if y = 0 then (if x = 0 then nan else if 0 < x then posInf else negInf)
    else round (x / y)
  | finite _, posInf => finite 0
  | finite _, negInf => finite 0
  | posInf, finite y => if 0 ≤ y then posInf else negInf
  | negInf, finite y => if 0 ≤ y then negInf else posInf
  | _, _ => nan

/-- The remainder operator `%`: the dividend less the divisor times the
quotient truncated towards zero, which is exact; NaN for an infinite dividend
or a zero divisor. -/
def rem : Double → Double → Double
  | finite x, finite y =>
    if y = 0 then nan else finite (x - y * (truncate (x / y) : ℚ))
  | finite x, posInf => finite x
  | finite x, negInf => finite x
  | _, _ => nan

/-- The comparison `<=`, false when an operand is NaN. -/
def ble : Double → Double → Bool
  | finite x, finite y => decide (x ≤ y)
  | finite _, posInf => true
  | negInf, finite _ => true
  | negInf, negInf => true
  | negInf, posInf => true
  | posInf, posInf => true
  | _, _ => false

/-- The comparison `<`, false when an operand is NaN. -/
def blt : Double → Double → Bool
  | finite x, finite y => decide (x < y)
  | finite _, posInf => true
  | negInf, finite _ => true
  | negInf, posInf => true
  | _, _ => false

instance : Add Double := ⟨add⟩

instance : Sub Double := ⟨fun a b => add a (neg b)⟩

instance : Mul Double := ⟨mul⟩

instance : Div Double := ⟨div⟩

instance : Neg Double := ⟨neg⟩

instance : Mod Double := ⟨rem⟩

/-- A numeric literal without fraction. -/
instance (n : ℕ) : OfNat Double n := ⟨round (n : ℚ)⟩

/-- A numeric literal with a fraction, such as `29.5`. -/
instance : OfScientific Double :=
  ⟨fun m s e => round (OfScientific.ofScientific m s e : ℚ)⟩

instance : LE Double := ⟨fun a b => ble a b = true⟩

instance : LT Double := ⟨fun a b => blt a b = true⟩

instance (a b : Double) : Decidable (a ≤ b) := inferInstanceAs (Decidable (ble a b = true))

instance (a b : Double) : Decidable (a < b) := inferInstanceAs (Decidable (blt a b = true))

/-- The number that an integer is when the program receives it. -/
def ofInt (n : ℤ) : Double := round (n : ℚ)

end Double

/-! ## Primitives of the host language -/

namespace Math

/-- The host function `Math.floor`. -/
def floor : Double → Double
  | .finite q => .finite (⌊q⌋ : ℚ)
  | x => x

/-- The host function `Math.ceil`. -/
def ceil : Double → Double
  | .finite q => .finite (⌈q⌉ : ℚ)
  | x => x

/-- The host function `Math.min`, on two arguments: NaN when one of them is
NaN, else the smaller. -/
def min (a b : Double) : Double :=
  if a = Double.nan ∨ b = Double.nan then Double.nan
  else if a ≤ b then a else b

end Math

/-! ## The program -/

/-- The class `HijriDate` (hijr.js, lines 31-36): the three fields set by the
constructor. -/
structure HijriDate where
  year : Double
  month : Double
  day : Double
deriving DecidableEq, Repr

/-- The method `HijriDate.toFixed` (hijr.js, lines 42-48). -/
def HijriDate.toFixed (self : HijriDate) : Double :=
  self.day +
    Math.ceil (29.5 * (self.month - 1)) +
    354 * (self.year - 1) +
    Math.floor ((11 * self.year + 3) / 30) +
    227015 - 1

/-- The spec's `hijriToFixed(year, month, day)`: in the source this is
`new HijriDate(year, month, day).toFixed()`. -/
def hijriToFixed (year month day : Double) : Double :=
  (HijriDate.mk year month day).toFixed

/-- The function `gregorianToFixed` (hijr.js, lines 68-76).  The parameter
`correction = 0` has a default value: `none` is the call that omits the
argument. -/
def gregorianToFixed (year month day : Double) (correction : Option Double) : Double :=
  let correction := correction.getD 0
  let s : Double :=
    if month ≤ 2 then 0
    else if (year % 4 = 0 ∧ year % 100 ≠ 0) ∨ year % 400 = 0 then -1
    else -2
  365 * (year - 1) +
    Math.floor ((year - 1) / 4) -
    Math.floor ((year - 1) / 100) +
    Math.floor ((year - 1) / 400) +
    Math.floor ((367 * month - 362) / 12) +
    s + day + correction

/-- The function `fixedToHijri` (hijr.js, lines 83-101).  The two mutable
objects `start` and `tempDate` are threaded through as successive values. -/
def fixedToHijri (fixedDay : Double) : HijriDate :=
  let start : HijriDate := ⟨1100, 1, 1⟩
  let start := { start with
    year := Math.floor ((30 * (fixedDay - 227015) + 10646) / 10631) }
  let tempDate : HijriDate := ⟨start.year, 1, 1⟩
  let month := Math.min
    (Math.ceil ((fixedDay - 29 - tempDate.toFixed) / 29.5) + 1)
    12
  let start := { start with month := month }
  let tempDate := { tempDate with year := start.year }
  let tempDate := { tempDate with month := month }
  let tempDate := { tempDate with day := 1 }
  let start := { start with day := fixedDay - tempDate.toFixed + 1 }
  start

/-- The unclamped month estimate of `fixedToHijri` (hijr.js, lines 85-89): the
first argument of `Math.min`, computed from the estimated year. -/
def fixedToHijri.monthEstimate (fixedDay : Double) : Double :=
  let year := Math.floor ((30 * (fixedDay - 227015) + 10646) / 10631)
  let tempDate : HijriDate := ⟨year, 1, 1⟩
  Math.ceil ((fixedDay - 29 - tempDate.toFixed) / 29.5) + 1

/-! ## Options, configuration and formatting -/

/-- The values a field of the `options` object can hold.  A field that the
object does not supply reads as `undefined`. -/
inductive JSValue where
  | undefined
  | null
  | boolean (b : Bool)
  | number (x : Double)
  | string (s : String)
  | object
deriving DecidableEq, Repr

/-- The conversion to a boolean that `!!v` performs. -/
def JSValue.truthy : JSValue → Bool
  | .undefined => false
  | .null => false
  | .boolean b => b
  | .number x => decide (x ≠ Double.nan ∧ x ≠ Double.finite 0)
  | .string s => s ≠ ""
  | .object => true

/-- The `options` argument of `hijriDate`, read at the seven recognised
fields. -/
structure Options where
  showWeekDay : JSValue
  showGregDate : JSValue
  separator : JSValue
  weekDayLang : JSValue
  hijriLang : JSValue
  gregLang : JSValue
  correction : JSValue
deriving DecidableEq, Repr

/-- The empty object `{}`: the default value of the parameter `options`, and
any object that supplies none of the recognised fields. -/
def Options.empty : Options :=
  ⟨.undefined, .undefined, .undefined, .undefined, .undefined, .undefined, .undefined⟩

/-- The object `config` built by `hijriDate` (hijr.js, lines 14-22). -/
structure Config where
  showWeekDay : Bool
  showGregDate : Bool
  separator : String
  weekDayLang : String
  hijriLang : String
  gregLang : String
  correction : Double
deriving DecidableEq, Repr

/-- The construction of `config` in `hijriDate` (hijr.js, lines 12-22).  The
parameter `options = {}` has a default value: `none` is the call without
argument.  A test `typeof v === "string"` (or `"number"`) followed by the use
of `v` is the match on the corresponding constructor. -/
def hijriDate.config (options : Option Options) : Config :=
  let options := options.getD Options.empty
  { showWeekDay := decide (options.showWeekDay ≠ JSValue.boolean false)
    showGregDate := !(!options.showGregDate.truthy)
    separator := match options.separator with
      | .string s => s
      | _ => " - "
    weekDayLang := match options.weekDayLang with
      | .string s => s
      | _ => "ar"
    hijriLang := match options.hijriLang with
      | .string s => s
      | _ => "ar"
    gregLang := match options.gregLang with
      | .string s => s
      | _ => "ar"
    correction := match options.correction with
      | .number x => x
      | _ => 0 }

/-- The defaults that the docstring of `hijriDate` documents (hijr.js,
lines 4-10), with `"ar"` for `gregLang`, which it leaves unstated. -/
def documentedDefaults : Config :=
  { showWeekDay := true
    showGregDate := false
    separator := "-"
    weekDayLang := "ar"
    hijriLang := "ar"
    gregLang := "ar"
    correction := 0 }

/-- The Arabic month names, `HIJRI_MONTHS.ar` (hijr.js, line 26). -/
def HIJRI_MONTHS.ar : List String :=
  ["المحرم", "صفر", "ربيع الأول", "ربيع الآخر", "جمادى الأولى", "جمادى الآخرة", "رجب", "شعبان", "رمضان", "شوال", "ذو القعدة", "ذو الحجة"]

/-- The Russian month names, `HIJRI_MONTHS.ru` (hijr.js, line 27). -/
def HIJRI_MONTHS.ru : List String :=
  ["Мухаррам", "Сафар", "Раби-уль-авваль", "Раби-уль-ахир", "Джумад-уль-ула", "Джумад-уль-ахир", "Раджаб", "Шаъбан", "Рамадан", "Шавваль", "Зуль-каъда", "Зуль-хиджа"]

/-- The property read `HIJRI_MONTHS[tag]` (hijr.js, lines 25-28): the table of
the tag, or `none` for `undefined`.  A property inherited from the prototype
of the object (such as `"constructor"`) is not an array and has no element at
a numeric index, so that it behaves as `undefined` in the lookup of
`toString`; it is `none` here. -/
def HIJRI_MONTHS (tag : String) : Option (List String) :=
  if tag = "ar" then some HIJRI_MONTHS.ar
  else if tag = "ru" then some HIJRI_MONTHS.ru
  else none

/-- The element read `table[i]` of an array at a number: the element when the
number is a non-negative integer inside the array, else `none`
(`undefined`). -/
def jsIndex (table : List String) (i : Double) : Option String :=
  match i with
  | .finite q => if q.den = 1 ∧ 0 ≤ q.num then table.get? q.num.toNat else none
  | _ => none

/-- The operator `a || b` on values that are a string or `undefined`: `a` when
it is truthy (a non-empty string), else `b`. -/
def jsOr (a b : Option String) : Option String :=
  match a with
  | some s => if s = "" then b else some s
  | none => b

/-- The text that a template literal gives for a string or `undefined`. -/
def valueToString : Option String → String
  | some s => s
  | none => "undefined"

/-- The month name computed by `HijriDate.toString` (hijr.js, line 55):
`HIJRI_MONTHS[config.hijriLang]?.[this.month - 1] || HIJRI_MONTHS.ar[this.month - 1]`. -/
def HijriDate.monthName (config : Config) (self : HijriDate) : Option String :=
  jsOr ((HIJRI_MONTHS config.hijriLang).bind (fun table => jsIndex table (self.month - 1)))
    (jsIndex HIJRI_MONTHS.ar (self.month - 1))

/-- The method `HijriDate.toString` (hijr.js, lines 54-57), which reads
`config.hijriLang`.  The text that the template literal gives for a number is
the host's conversion, taken as the parameter `numberToString`. -/
def HijriDate.toString (numberToString : Double → String) (config : Config)
    (self : HijriDate) : String :=
  let monthName := HijriDate.monthName config self
  numberToString self.day ++ " " ++ valueToString monthName ++ " " ++ numberToString self.year

/-- The decimal digits of the integer part: the host's conversion of an integer
of magnitude below 10^21. -/
def integerDigits (x : Double) : String := toString ⌊x.val⌋

/-! ## The formulas of the spec in exact integer arithmetic -/

namespace Exact

/-- The formula of the spec for `hijriToFixed` (spec, section 4.1), read in
exact integer arithmetic; `ceil(29.5 * (m - 1))` is `-floor(-59 * (m - 1) / 2)`. -/
def hijriToFixed (y m d : ℤ) : ℤ :=
  d + -((-(59 * (m - 1))) / 2) + 354 * (y - 1) + (11 * y + 3) / 30 + 227015 - 1

/-- The formula of the spec for `gregorianToFixed` (spec, section 4.1), read
in exact integer arithmetic. -/
def gregorianToFixed (y m d c : ℤ) : ℤ :=
  365 * (y - 1) + (y - 1) / 4 - (y - 1) / 100 + (y - 1) / 400 +
    (367 * m - 362) / 12 +
    (if m ≤ 2 then 0
      else if (y % 4 = 0 ∧ y % 100 ≠ 0) ∨ y % 400 = 0 then -1 else -2) +
    d + c

/-- Step 1 of the spec's `fixedToHijri`: the year estimate. -/
def estimatedYear (f : ℤ) : ℤ := (30 * (f - 227015) + 10646) / 10631

/-- Step 2 of the spec's `fixedToHijri` before the clamp;
`ceil(x / 29.5)` is `-floor(-2 * x / 59)`. -/
def monthEstimate (f : ℤ) : ℤ :=
  -((-(2 * (f - 29 - hijriToFixed (estimatedYear f) 1 1))) / 59) + 1

/-- Step 2 of the spec's `fixedToHijri`: the month, clamped to 12. -/
def month (f : ℤ) : ℤ := min (monthEstimate f) 12

/-- Step 3 of the spec's `fixedToHijri`: the day. -/
def day (f : ℤ) : ℤ := f - hijriToFixed (estimatedYear f) (month f) 1 + 1

/-- Length of year `y` in exact arithmetic. -/
def hijriYearLength (y : ℤ) : ℤ := hijriToFixed (y + 1) 1 1 - hijriToFixed y 1 1

/-- Length of month `m` of year `y` in exact arithmetic. -/
def hijriMonthLength (y m : ℤ) : ℤ :=
  if m % 2 = 1 then 30
  else if m < 12 then 29
  else if hijriYearLength y = 355 then 30
  else 29

end Exact

/-! ## Ranges and calendar notions used to state the properties -/

/-- The range of months, days and corrections on which the properties are
stated, and of years for the round trips: magnitude at most 10^11. -/
def inFieldRange (n : ℤ) : Prop := -100000000000 ≤ n ∧ n ≤ 100000000000

instance (n : ℤ) : Decidable (inFieldRange n) := by
  unfold inFieldRange; infer_instance

/-- The range of years on which the properties of the forward transforms are
stated: magnitude at most 10^13. -/
def inYearRange (y : ℤ) : Prop := -10000000000000 ≤ y ∧ y ≤ 10000000000000

instance (y : ℤ) : Decidable (inYearRange y) := by
  unfold inYearRange; infer_instance

/-- The range of fixed days on which the properties are stated: magnitude at
most 10^14. -/
def inFixedRange (f : ℤ) : Prop := -100000000000000 ≤ f ∧ f ≤ 100000000000000

instance (f : ℤ) : Decidable (inFixedRange f) := by
  unfold inFixedRange; infer_instance

/-- Length of Hijri year `y` as the program numbers it: the distance between
the first days of years `y + 1` and `y`. -/
def hijriYearLength (y : ℤ) : ℚ :=
  (hijriToFixed (Double.ofInt (y + 1)) 1 1).val - (hijriToFixed (Double.ofInt y) 1 1).val

/-- Length of month `m` of Hijri year `y`: 30 for odd months, 29 for even
months before the twelfth, and for the twelfth 30 exactly when the year is
355 days long. -/
def hijriMonthLength (y m : ℤ) : ℤ :=
  if m % 2 = 1 then 30
  else if m < 12 then 29
  else if hijriYearLength y = 355 then 30
  else 29

/-- The Gregorian leap rule: divisible by 4 and not by 100, or divisible
by 400. -/
def isGregorianLeap (y : ℤ) : Prop :=
  (4 ∣ y ∧ ¬ 100 ∣ y) ∨ 400 ∣ y

instance (y : ℤ) : Decidable (isGregorianLeap y) := by
  unfold isGregorianLeap; infer_instance

/-- Length of month `m` of Gregorian year `y`. -/
def gregorianMonthLength (y m : ℤ) : ℤ :=
  if m = 2 then (if isGregorianLeap y then 29 else 28)
  else if m = 4 ∨ m = 6 ∨ m = 9 ∨ m = 11 then 30
  else 31

/-- A real Gregorian date: month 1..12, day within the month. -/
def isGregorianDate (y m d : ℤ) : Prop :=
  1 ≤ m ∧ m ≤ 12 ∧ 1 ≤ d ∧ d ≤ gregorianMonthLength y m

/-- Calendar (lexicographic) order on year, month, day. -/
def calendarBefore (y1 m1 d1 y2 m2 d2 : ℤ) : Prop :=
  y1 < y2 ∨ (y1 = y2 ∧ (m1 < m2 ∨ (m1 = m2 ∧ d1 < d2)))

/-! ## Rounding: specification of the exponent and of the rounding -/

theorem log2Aux_spec (fuel n : ℕ) (h : n ≤ fuel) (h1 : 1 ≤ n) :
    2 ^ log2Aux fuel n ≤ n ∧ n < 2 ^ (log2Aux fuel n + 1) := by
  induction fuel generalizing n with
  | zero => omega
  | succ k ih =>
    unfold log2Aux
    split_ifs with h2
    · constructor <;> norm_num <;> omega
    · obtain ⟨i1, i2⟩ := ih (n / 2) (by omega) (by omega)
      rw [pow_succ] at i2 ⊢
      rw [pow_succ (2 : ℕ) (log2Aux k (n / 2) + 1), pow_succ]
      constructor <;> omega

theorem log2_spec (n : ℕ) (h1 : 1 ≤ n) : 2 ^ log2 n ≤ n ∧ n < 2 ^ (log2 n + 1) :=
  log2Aux_spec n n le_rfl h1

theorem binade_spec (x : ℚ) (hx : x ≠ 0) :
    (2 : ℚ) ^ binade x ≤ |x| ∧ |x| < (2 : ℚ) ^ (binade x + 1) := by
  have hnum : x.num ≠ 0 := Rat.num_ne_zero.mpr hx
  have ha1 : 1 ≤ x.num.natAbs := Nat.one_le_iff_ne_zero.mpr (Int.natAbs_ne_zero.mpr hnum)
  have hb1 : 1 ≤ x.den := x.den_pos
  obtain ⟨la1, la2⟩ := log2_spec _ ha1
  obtain ⟨lb1, lb2⟩ := log2_spec _ hb1
  have hbpos : (0 : ℚ) < x.den := by exact_mod_cast hb1
  have habs : |x| = (x.num.natAbs : ℚ) / (x.den : ℚ) := by
    conv_lhs => rw [← Rat.num_div_den x]
    rw [abs_div, Nat.abs_cast, Nat.cast_natAbs, Int.cast_abs]
  have qa1 : (2 : ℚ) ^ (log2 x.num.natAbs : ℤ) ≤ (x.num.natAbs : ℚ) := by
    rw [zpow_natCast]; exact_mod_cast la1
  have qa2 : (x.num.natAbs : ℚ) < (2 : ℚ) ^ ((log2 x.num.natAbs : ℤ) + 1) := by
    have : ((log2 x.num.natAbs : ℤ) + 1) = ((log2 x.num.natAbs + 1 : ℕ) : ℤ) := by push_cast; rfl
    rw [this, zpow_natCast]; exact_mod_cast la2
  have qb1 : (2 : ℚ) ^ (log2 x.den : ℤ) ≤ (x.den : ℚ) := by
    rw [zpow_natCast]; exact_mod_cast lb1
  have qb2 : (x.den : ℚ) < (2 : ℚ) ^ ((log2 x.den : ℤ) + 1) := by
    have : ((log2 x.den : ℤ) + 1) = ((log2 x.den + 1 : ℕ) : ℤ) := by push_cast; rfl
    rw [this, zpow_natCast]; exact_mod_cast lb2
  have h2 : (2 : ℚ) ≠ 0 := by norm_num
  unfold binade
  split_ifs with hc
  · refine ⟨hc, ?_⟩
    rw [habs, div_lt_iff₀ hbpos]
    have e : (2 : ℚ) ^ ((log2 x.num.natAbs : ℤ) - (log2 x.den : ℤ) + 1) * (2 : ℚ) ^ (log2 x.den : ℤ)
        = (2 : ℚ) ^ ((log2 x.num.natAbs : ℤ) + 1) := by
      rw [← zpow_add₀ h2]; congr 1; ring
    have hp : (0 : ℚ) < (2 : ℚ) ^ ((log2 x.num.natAbs : ℤ) - (log2 x.den : ℤ) + 1) :=
      zpow_pos (by norm_num) _
    calc (x.num.natAbs : ℚ) < (2 : ℚ) ^ ((log2 x.num.natAbs : ℤ) + 1) := qa2
      _ = (2 : ℚ) ^ ((log2 x.num.natAbs : ℤ) - (log2 x.den : ℤ) + 1) * (2 : ℚ) ^ (log2 x.den : ℤ) := e.symm
      _ ≤ (2 : ℚ) ^ ((log2 x.num.natAbs : ℤ) - (log2 x.den : ℤ) + 1) * (x.den : ℚ) :=
          mul_le_mul_of_nonneg_left qb1 hp.le
  · push_neg at hc
    refine ⟨?_, ?_⟩
    · rw [habs, le_div_iff₀ hbpos]
      have e : (2 : ℚ) ^ ((log2 x.num.natAbs : ℤ) - (log2 x.den : ℤ) - 1) *
          (2 : ℚ) ^ ((log2 x.den : ℤ) + 1) = (2 : ℚ) ^ (log2 x.num.natAbs : ℤ) := by
        rw [← zpow_add₀ h2]; congr 1; ring
      have hp : (0 : ℚ) < (2 : ℚ) ^ ((log2 x.num.natAbs : ℤ) - (log2 x.den : ℤ) - 1) :=
        zpow_pos (by norm_num) _
      calc (2 : ℚ) ^ ((log2 x.num.natAbs : ℤ) - (log2 x.den : ℤ) - 1) * (x.den : ℚ)
          ≤ (2 : ℚ) ^ ((log2 x.num.natAbs : ℤ) - (log2 x.den : ℤ) - 1) *
            (2 : ℚ) ^ ((log2 x.den : ℤ) + 1) := mul_le_mul_of_nonneg_left qb2.le hp.le
        _ = (2 : ℚ) ^ (log2 x.num.natAbs : ℤ) := e
        _ ≤ (x.num.natAbs : ℚ) := qa1
    · have : (log2 x.num.natAbs : ℤ) - (log2 x.den : ℤ) - 1 + 1 =
          (log2 x.num.natAbs : ℤ) - (log2 x.den : ℤ) := by ring
      rw [this]; exact hc

theorem roundHalfEven_intCast (n : ℤ) : roundHalfEven (n : ℚ) = n := by
  unfold roundHalfEven
  simp

theorem floor_le_roundHalfEven (t : ℚ) : ⌊t⌋ ≤ roundHalfEven t := by
  unfold roundHalfEven
  split_ifs <;> omega

theorem roundHalfEven_le_floor_add_one (t : ℚ) : roundHalfEven t ≤ ⌊t⌋ + 1 := by
  unfold roundHalfEven
  split_ifs <;> omega

theorem le_roundHalfEven (n : ℤ) (t : ℚ) (h : (n : ℚ) ≤ t) : n ≤ roundHalfEven t :=
  le_trans (Int.le_floor.mpr h) (floor_le_roundHalfEven t)

theorem roundHalfEven_le (n : ℤ) (t : ℚ) (h : t ≤ (n : ℚ)) : roundHalfEven t ≤ n := by
  rcases eq_or_lt_of_le h with he | hlt
  · rw [he, roundHalfEven_intCast]
  · have : ⌊t⌋ < n := Int.floor_lt.mpr hlt
    have := roundHalfEven_le_floor_add_one t
    omega

theorem roundNearest_zero : roundNearest 0 = 0 := by
  unfold roundNearest; simp

theorem roundNearest_of_ne (x : ℚ) (hx : x ≠ 0) :
    roundNearest x =
      (roundHalfEven (x / (2 : ℚ) ^ ulpExponent x) : ℚ) * (2 : ℚ) ^ ulpExponent x := by
  unfold roundNearest; rw [if_neg hx]

/-- The scaled value is below 2^53 in magnitude, and at least 2^52 unless the
unit is the smallest one. -/
theorem scaled_bounds (x : ℚ) (hx : x ≠ 0) :
    |x| < (2 : ℚ) ^ 53 * (2 : ℚ) ^ ulpExponent x ∧
      (-1074 < ulpExponent x → (2 : ℚ) ^ 52 * (2 : ℚ) ^ ulpExponent x ≤ |x|) := by
  obtain ⟨h1, h2⟩ := binade_spec x hx
  have h2' : (2 : ℚ) ≠ 0 := by norm_num
  have e1 : ∀ E : ℤ, (2 : ℚ) ^ 52 * (2 : ℚ) ^ E = (2 : ℚ) ^ (E + 52) := by
    intro E
    rw [← zpow_natCast, ← zpow_add₀ h2']; congr 1; push_cast; ring
  have e2 : ∀ E : ℤ, (2 : ℚ) ^ 53 * (2 : ℚ) ^ E = (2 : ℚ) ^ (E + 53) := by
    intro E
    rw [← zpow_natCast, ← zpow_add₀ h2']; congr 1; push_cast; ring
  constructor
  · rw [e2]
    refine lt_of_lt_of_le h2 (zpow_le_zpow_right₀ (by norm_num) ?_)
    unfold ulpExponent
    have := le_max_left (binade x - 52) (-1074)
    omega
  · intro hE
    rw [e1]
    have hEq : ulpExponent x = binade x - 52 := by
      unfold ulpExponent at hE ⊢
      rcases max_cases (binade x - 52) (-1074) with ⟨h, _⟩ | ⟨h, _⟩
      · exact h
      · rw [h] at hE; omega
    rw [hEq]
    have : binade x - 52 + 52 = binade x := by ring
    rw [this]; exact h1

/-- A power of two that is at least the unit of `x` is an integer multiple of
that unit. -/
theorem zpow_split_ge (E j : ℤ) (h : E ≤ j) :
    (2 : ℚ) ^ j = ((2 ^ (j - E).toNat : ℤ) : ℚ) * (2 : ℚ) ^ E := by
  have h2 : (2 : ℚ) ≠ 0 := by norm_num
  have hk : ((j - E).toNat : ℤ) = j - E := Int.toNat_of_nonneg (by omega)
  push_cast
  rw [← zpow_natCast, ← zpow_add₀ h2, hk]
  congr 1; ring

theorem zpow_split_lt (E j : ℤ) (h : j < E) :
    (2 : ℚ) ^ j * 2 ≤ (2 : ℚ) ^ E := by
  have h2 : (2 : ℚ) ≠ 0 := by norm_num
  have : (2 : ℚ) ^ j * 2 = (2 : ℚ) ^ (j + 1) := by rw [zpow_add_one₀ h2]
  rw [this]
  exact zpow_le_zpow_right₀ (by norm_num) (by omega)

/-- Rounding never crosses a representable number. -/
theorem roundNearest_sandwich (x d : ℚ) (hd : isDouble d) :
    (d ≤ x → d ≤ roundNearest x) ∧ (x ≤ d → roundNearest x ≤ d) := by
  by_cases hx : x = 0
  · subst hx; rw [roundNearest_zero]; exact ⟨id, id⟩
  obtain ⟨m, j, hm, hj, rfl⟩ := hd
  obtain ⟨s2, s1⟩ := scaled_bounds x hx
  have hu : (0 : ℚ) < (2 : ℚ) ^ ulpExponent x := zpow_pos (by norm_num) _
  rw [roundNearest_of_ne x hx]
  have hmq : |(m : ℚ)| ≤ (2 : ℚ) ^ 53 := by
    have : ((|m| : ℤ) : ℚ) ≤ ((2 ^ 53 : ℤ) : ℚ) := by exact_mod_cast hm
    simpa using this
  by_cases hjE : ulpExponent x ≤ j
  · -- the candidate is an integer multiple of the unit
    rw [zpow_split_ge _ _ hjE, ← mul_assoc]
    generalize (2 : ℚ) ^ ulpExponent x = u at *
    have hN : (m : ℚ) * ((2 ^ (j - ulpExponent x).toNat : ℤ) : ℚ) =
        ((m * 2 ^ (j - ulpExponent x).toNat : ℤ) : ℚ) := by push_cast; ring
    rw [hN]
    generalize m * 2 ^ (j - ulpExponent x).toNat = N
    constructor
    · intro h
      have hq : (N : ℚ) ≤ x / u := by rw [le_div_iff₀ hu]; exact h
      have := le_roundHalfEven N _ hq
      have : (N : ℚ) ≤ (roundHalfEven (x / u) : ℚ) := by exact_mod_cast this
      exact mul_le_mul_of_nonneg_right this hu.le
    · intro h
      have hq : x / u ≤ (N : ℚ) := by rw [div_le_iff₀ hu]; exact h
      have := roundHalfEven_le N _ hq
      have : (roundHalfEven (x / u) : ℚ) ≤ (N : ℚ) := by exact_mod_cast this
      exact mul_le_mul_of_nonneg_right this hu.le
  · -- the candidate is below the binade of `x` in magnitude
    push_neg at hjE
    have s1 := s1 (by omega)
    have hsmall := zpow_split_lt _ _ hjE
    have hjpos : (0 : ℚ) < (2 : ℚ) ^ j := zpow_pos (by norm_num) _
    have hdabs : |(m : ℚ) * (2 : ℚ) ^ j| ≤ (2 : ℚ) ^ 52 * (2 : ℚ) ^ ulpExponent x := by
      rw [abs_mul, abs_of_pos hjpos]
      calc |(m : ℚ)| * (2 : ℚ) ^ j ≤ (2 : ℚ) ^ 53 * (2 : ℚ) ^ j :=
            mul_le_mul_of_nonneg_right hmq hjpos.le
        _ = (2 : ℚ) ^ 52 * ((2 : ℚ) ^ j * 2) := by ring
        _ ≤ (2 : ℚ) ^ 52 * (2 : ℚ) ^ ulpExponent x :=
            mul_le_mul_of_nonneg_left hsmall (by positivity)
    generalize (2 : ℚ) ^ ulpExponent x = u at *
    generalize (m : ℚ) * (2 : ℚ) ^ j = d at *
    obtain ⟨hd1, hd2⟩ := abs_le.mp hdabs
    rcases lt_or_gt_of_ne hx with hneg | hpos
    · rw [abs_of_neg hneg] at s1
      have hq : x / u ≤ ((-(2 ^ 52) : ℤ) : ℚ) := by
        rw [div_le_iff₀ hu]; push_cast; linarith
      have hr := roundHalfEven_le _ _ hq
      have hr2 : (roundHalfEven (x / u) : ℚ) ≤ -(2 : ℚ) ^ 52 := by exact_mod_cast hr
      have hru : (roundHalfEven (x / u) : ℚ) * u ≤ -(2 : ℚ) ^ 52 * u :=
        mul_le_mul_of_nonneg_right hr2 hu.le
      constructor
      · intro h
        have hxe : x = -(2 : ℚ) ^ 52 * u := by linarith
        have hqe : x / u = ((-(2 ^ 52) : ℤ) : ℚ) := by
          rw [hxe, mul_div_assoc, div_self (ne_of_gt hu)]; norm_num
        rw [hqe, roundHalfEven_intCast]
        push_cast; linarith
      · intro _; linarith
    · rw [abs_of_pos hpos] at s1
      have hq : ((2 ^ 52 : ℤ) : ℚ) ≤ x / u := by
        rw [le_div_iff₀ hu]; push_cast; linarith
      have hr := le_roundHalfEven _ _ hq
      have hr2 : (2 : ℚ) ^ 52 ≤ (roundHalfEven (x / u) : ℚ) := by exact_mod_cast hr
      have hru : (2 : ℚ) ^ 52 * u ≤ (roundHalfEven (x / u) : ℚ) * u :=
        mul_le_mul_of_nonneg_right hr2 hu.le
      constructor
      · intro _; linarith
      · intro h
        have hxe : x = (2 : ℚ) ^ 52 * u := by linarith
        have hqe : x / u = ((2 ^ 52 : ℤ) : ℚ) := by
          rw [hxe, mul_div_assoc, div_self (ne_of_gt hu)]; norm_num
        rw [hqe, roundHalfEven_intCast]
        push_cast; linarith

theorem roundNearest_of_isDouble (d : ℚ) (hd : isDouble d) : roundNearest d = d := by
  obtain ⟨h1, h2⟩ := roundNearest_sandwich d d hd
  exact le_antisymm (h2 le_rfl) (h1 le_rfl)

theorem isDouble_roundNearest (x : ℚ) : isDouble (roundNearest x) := by
  by_cases hx : x = 0
  · subst hx; rw [roundNearest_zero]; exact ⟨0, 0, by norm_num, by norm_num, by simp⟩
  obtain ⟨s2, _⟩ := scaled_bounds x hx
  have hu : (0 : ℚ) < (2 : ℚ) ^ ulpExponent x := zpow_pos (by norm_num) _
  rw [roundNearest_of_ne x hx]
  refine ⟨roundHalfEven (x / (2 : ℚ) ^ ulpExponent x), ulpExponent x, ?_,
    le_max_right _ _, rfl⟩
  obtain ⟨a1, a2⟩ := abs_lt.mp s2
  rw [abs_le]
  constructor
  · have hq : ((-(2 ^ 53) : ℤ) : ℚ) ≤ x / (2 : ℚ) ^ ulpExponent x := by
      rw [le_div_iff₀ hu]; push_cast; linarith
    exact le_roundHalfEven _ _ hq
  · have hq : x / (2 : ℚ) ^ ulpExponent x ≤ ((2 ^ 53 : ℤ) : ℚ) := by
      rw [div_le_iff₀ hu]; push_cast; linarith
    exact roundHalfEven_le _ _ hq

theorem roundNearest_idem (x : ℚ) : roundNearest (roundNearest x) = roundNearest x :=
  roundNearest_of_isDouble _ (isDouble_roundNearest x)

theorem isDouble_dyadic (m : ℤ) (k : ℕ) (hk : k ≤ 1074) (h1 : -9007199254740992 ≤ m)
    (h2 : m ≤ 9007199254740992) : isDouble ((m : ℚ) / (2 : ℚ) ^ k) := by
  refine ⟨m, -(k : ℤ), ?_, by omega, ?_⟩
  · rw [abs_le]; constructor <;> norm_num <;> omega
  · rw [zpow_neg, zpow_natCast, div_eq_mul_inv]

theorem isDouble_intCast (n : ℤ) (h1 : -9007199254740992 ≤ n) (h2 : n ≤ 9007199254740992) :
    isDouble (n : ℚ) := by
  have := isDouble_dyadic n 0 (by norm_num) h1 h2
  simpa using this

theorem roundNearest_intCast (n : ℤ) (h1 : -9007199254740992 ≤ n)
    (h2 : n ≤ 9007199254740992) : roundNearest (n : ℚ) = n :=
  roundNearest_of_isDouble _ (isDouble_intCast n h1 h2)

/-- A result of magnitude at most 2^53 rounds to a finite number. -/
theorem Double.round_of_abs_le (x : ℚ) (h1 : -9007199254740992 ≤ x)
    (h2 : x ≤ 9007199254740992) : Double.round x = Double.finite (roundNearest x) := by
  have d1 := isDouble_intCast (-9007199254740992) (by norm_num) (by norm_num)
  have d2 := isDouble_intCast 9007199254740992 (by norm_num) (by norm_num)
  have s1 := (roundNearest_sandwich x _ d1).1 (by push_cast; linarith)
  have s2 := (roundNearest_sandwich x _ d2).2 (by push_cast; linarith)
  push_cast at s1 s2
  unfold Double.round
  have hbig : (9007199254740992 : ℚ) < (2 : ℚ) ^ 1024 := by norm_num
  rw [if_neg (by linarith), if_neg (by linarith)]

/-! ## Floor and ceiling of a rounded quotient -/

/-- The floor of the rounded quotient of two integers is the exact floor, when
the quotient leaves room for `k` fraction bits and the divisor is at most
`2^k`. -/
theorem floor_roundNearest_div (a b : ℤ) (k : ℕ) (hk : k ≤ 1074) (hb0 : 0 < b) (hbk : b ≤ 2 ^ k)
    (h1 : -9007199254740992 ≤ a / b * 2 ^ k)
    (h2 : (a / b + 1) * 2 ^ k ≤ 9007199254740992) :
    ⌊roundNearest ((a : ℚ) / (b : ℚ))⌋ = a / b := by
  have hbq : (0 : ℚ) < (b : ℚ) := by exact_mod_cast hb0
  have hk1 : (1 : ℤ) ≤ 2 ^ k := one_le_pow₀ (by norm_num)
  have hkq : (0 : ℚ) < (2 : ℚ) ^ k := by positivity
  have hlo : ((a / b : ℤ) : ℚ) ≤ (a : ℚ) / (b : ℚ) := by
    rw [le_div_iff₀ hbq]
    exact_mod_cast Int.ediv_mul_le a (ne_of_gt hb0)
  have hhi : (a : ℚ) / (b : ℚ) ≤ ((a / b : ℤ) : ℚ) + 1 - 1 / (b : ℚ) := by
    rw [div_le_iff₀ hbq]
    have h : a + 1 ≤ (a / b + 1) * b := Int.lt_ediv_add_one_mul_self a hb0
    have hq : ((a : ℚ) + 1) ≤ (((a / b : ℤ) : ℚ) + 1) * (b : ℚ) := by exact_mod_cast h
    have : (((a / b : ℤ) : ℚ) + 1 - 1 / (b : ℚ)) * (b : ℚ) =
        (((a / b : ℤ) : ℚ) + 1) * (b : ℚ) - 1 := by
      field_simp
    rw [this]; linarith
  have hinv : 1 / (2 : ℚ) ^ k ≤ 1 / (b : ℚ) := by
    apply one_div_le_one_div_of_le hbq
    exact_mod_cast hbk
  generalize a / b = n at *
  have hn1 : -9007199254740992 ≤ n := by nlinarith
  have hn2 : n ≤ 9007199254740992 := by nlinarith
  have d1 : isDouble (n : ℚ) := isDouble_intCast n hn1 hn2
  have d2 : isDouble ((((n + 1) * 2 ^ k - 1 : ℤ) : ℚ) / (2 : ℚ) ^ k) :=
    isDouble_dyadic _ k hk (by nlinarith) (by nlinarith)
  have e2 : (((n + 1) * 2 ^ k - 1 : ℤ) : ℚ) / (2 : ℚ) ^ k = (n : ℚ) + 1 - 1 / (2 : ℚ) ^ k := by
    push_cast; field_simp
  rw [e2] at d2
  have s1 := (roundNearest_sandwich _ _ d1).1 hlo
  have s2 := (roundNearest_sandwich ((a : ℚ) / (b : ℚ)) _ d2).2 (by linarith)
  rw [Int.floor_eq_iff]
  refine ⟨s1, ?_⟩
  have : (0 : ℚ) < 1 / (2 : ℚ) ^ k := by positivity
  linarith

/-- The ceiling of the rounded quotient of two integers is the exact ceiling,
under the same conditions. -/
theorem ceil_roundNearest_div (a b : ℤ) (k : ℕ) (hk : k ≤ 1074) (hb0 : 0 < b) (hbk : b ≤ 2 ^ k)
    (h1 : -9007199254740992 ≤ (-((-a) / b) - 1) * 2 ^ k)
    (h2 : -((-a) / b) * 2 ^ k ≤ 9007199254740992) :
    ⌈roundNearest ((a : ℚ) / (b : ℚ))⌉ = -((-a) / b) := by
  have hbq : (0 : ℚ) < (b : ℚ) := by exact_mod_cast hb0
  have hk1 : (1 : ℤ) ≤ 2 ^ k := one_le_pow₀ (by norm_num)
  have hkq : (0 : ℚ) < (2 : ℚ) ^ k := by positivity
  have hhi : (a : ℚ) / (b : ℚ) ≤ ((-((-a) / b) : ℤ) : ℚ) := by
    rw [div_le_iff₀ hbq]
    have h := Int.ediv_mul_le (-a) (ne_of_gt hb0)
    have hq : (((-a) / b : ℤ) : ℚ) * (b : ℚ) ≤ ((-a : ℤ) : ℚ) := by exact_mod_cast h
    push_cast at hq ⊢
    linarith
  have hlo : ((-((-a) / b) : ℤ) : ℚ) - 1 + 1 / (b : ℚ) ≤ (a : ℚ) / (b : ℚ) := by
    rw [le_div_iff₀ hbq]
    have h : -a + 1 ≤ ((-a) / b + 1) * b := Int.lt_ediv_add_one_mul_self (-a) hb0
    have hq : ((-a : ℤ) : ℚ) + 1 ≤ ((((-a) / b : ℤ) : ℚ) + 1) * (b : ℚ) := by exact_mod_cast h
    have : (((-((-a) / b) : ℤ) : ℚ) - 1 + 1 / (b : ℚ)) * (b : ℚ) =
        (((-((-a) / b) : ℤ) : ℚ) - 1) * (b : ℚ) + 1 := by
      field_simp
    rw [this]
    push_cast at hq ⊢
    linarith
  have hinv : 1 / (2 : ℚ) ^ k ≤ 1 / (b : ℚ) := by
    apply one_div_le_one_div_of_le hbq
    exact_mod_cast hbk
  generalize -((-a) / b) = n at *
  have hn1 : -9007199254740992 ≤ n := by nlinarith
  have hn2 : n ≤ 9007199254740992 := by nlinarith
  have d2 : isDouble (n : ℚ) := isDouble_intCast n hn1 hn2
  have d1 : isDouble ((((n - 1) * 2 ^ k + 1 : ℤ) : ℚ) / (2 : ℚ) ^ k) :=
    isDouble_dyadic _ k hk (by nlinarith) (by nlinarith)
  have e1 : (((n - 1) * 2 ^ k + 1 : ℤ) : ℚ) / (2 : ℚ) ^ k = (n : ℚ) - 1 + 1 / (2 : ℚ) ^ k := by
    push_cast; field_simp
  rw [e1] at d1
  have s1 := (roundNearest_sandwich ((a : ℚ) / (b : ℚ)) _ d1).1 (by linarith)
  have s2 := (roundNearest_sandwich _ _ d2).2 hhi
  rw [Int.ceil_eq_iff]
  refine ⟨?_, s2⟩
  have : (0 : ℚ) < 1 / (2 : ℚ) ^ k := by positivity
  linarith

/-! ## The operations on integers inside the exact range -/

namespace Double

theorem div_finite (x y : ℚ) :
    div (finite x) (finite y) =
      if y = 0 then (if x = 0 then nan else if 0 < x then posInf else negInf)
      else round (x / y) := rfl

theorem rem_finite (x y : ℚ) :
    rem (finite x) (finite y) =
      if y = 0 then nan else finite (x - y * (truncate (x / y) : ℚ)) := rfl

theorem ofInt_eq (n : ℤ) (h1 : -9007199254740992 ≤ n) (h2 : n ≤ 9007199254740992) :
    ofInt n = finite (n : ℚ) := by
  unfold ofInt
  rw [round_of_abs_le _ (by exact_mod_cast h1) (by exact_mod_cast h2),
    roundNearest_intCast n h1 h2]

theorem ofInt_val (n : ℤ) (h1 : -9007199254740992 ≤ n) (h2 : n ≤ 9007199254740992) :
    (ofInt n).val = n := by
  rw [ofInt_eq n h1 h2]; rfl

theorem ofNat_eq_ofInt (n : ℕ) : (OfNat.ofNat n : Double) = ofInt (OfNat.ofNat n) := by
  show round (n : ℚ) = round (((n : ℕ) : ℤ) : ℚ)
  rw [Int.cast_natCast]

theorem ofInt_inj (a b : ℤ) (ha1 : -9007199254740992 ≤ a) (ha2 : a ≤ 9007199254740992)
    (hb1 : -9007199254740992 ≤ b) (hb2 : b ≤ 9007199254740992) :
    ofInt a = ofInt b ↔ a = b := by
  constructor
  · intro h
    have hv : (ofInt a).val = (ofInt b).val := by rw [h]
    rw [ofInt_val a ha1 ha2, ofInt_val b hb1 hb2] at hv
    exact_mod_cast hv
  · intro h; rw [h]

theorem add_ofInt (a b : ℤ) (ha1 : -9007199254740992 ≤ a) (ha2 : a ≤ 9007199254740992)
    (hb1 : -9007199254740992 ≤ b) (hb2 : b ≤ 9007199254740992) :
    ofInt a + ofInt b = ofInt (a + b) := by
  rw [ofInt_eq a ha1 ha2, ofInt_eq b hb1 hb2]
  show round ((a : ℚ) + (b : ℚ)) = round ((a + b : ℤ) : ℚ)
  push_cast; rfl

theorem sub_ofInt (a b : ℤ) (ha1 : -9007199254740992 ≤ a) (ha2 : a ≤ 9007199254740992)
    (hb1 : -9007199254740992 ≤ b) (hb2 : b ≤ 9007199254740992) :
    ofInt a - ofInt b = ofInt (a - b) := by
  rw [ofInt_eq a ha1 ha2, ofInt_eq b hb1 hb2]
  show round ((a : ℚ) + -(b : ℚ)) = round ((a - b : ℤ) : ℚ)
  push_cast; rw [sub_eq_add_neg]

theorem mul_ofInt (a b : ℤ) (ha1 : -9007199254740992 ≤ a) (ha2 : a ≤ 9007199254740992)
    (hb1 : -9007199254740992 ≤ b) (hb2 : b ≤ 9007199254740992) :
    ofInt a * ofInt b = ofInt (a * b) := by
  rw [ofInt_eq a ha1 ha2, ofInt_eq b hb1 hb2]
  show round ((a : ℚ) * (b : ℚ)) = round ((a * b : ℤ) : ℚ)
  push_cast; rfl

theorem neg_ofInt (a : ℤ) (ha1 : -9007199254740992 ≤ a) (ha2 : a ≤ 9007199254740992) :
    -ofInt a = ofInt (-a) := by
  rw [ofInt_eq a ha1 ha2, ofInt_eq (-a) (by omega) (by omega)]
  show finite (-(a : ℚ)) = finite ((-a : ℤ) : ℚ)
  push_cast; rfl

theorem le_ofInt (a b : ℤ) (ha1 : -9007199254740992 ≤ a) (ha2 : a ≤ 9007199254740992)
    (hb1 : -9007199254740992 ≤ b) (hb2 : b ≤ 9007199254740992) :
    ofInt a ≤ ofInt b ↔ a ≤ b := by
  rw [ofInt_eq a ha1 ha2, ofInt_eq b hb1 hb2]
  show decide ((a : ℚ) ≤ (b : ℚ)) = true ↔ a ≤ b
  rw [decide_eq_true_iff]
  exact Int.cast_le

theorem lt_ofInt (a b : ℤ) (ha1 : -9007199254740992 ≤ a) (ha2 : a ≤ 9007199254740992)
    (hb1 : -9007199254740992 ≤ b) (hb2 : b ≤ 9007199254740992) :
    ofInt a < ofInt b ↔ a < b := by
  rw [ofInt_eq a ha1 ha2, ofInt_eq b hb1 hb2]
  show decide ((a : ℚ) < (b : ℚ)) = true ↔ a < b
  rw [decide_eq_true_iff]
  exact Int.cast_lt

theorem min_ofInt (a b : ℤ) (ha1 : -9007199254740992 ≤ a) (ha2 : a ≤ 9007199254740992)
    (hb1 : -9007199254740992 ≤ b) (hb2 : b ≤ 9007199254740992) :
    Math.min (ofInt a) (ofInt b) = ofInt (min a b) := by
  have h := le_ofInt a b ha1 ha2 hb1 hb2
  have na : ofInt a ≠ nan := by rw [ofInt_eq a ha1 ha2]; exact Double.noConfusion
  have nb : ofInt b ≠ nan := by rw [ofInt_eq b hb1 hb2]; exact Double.noConfusion
  unfold Math.min
  rw [if_neg (by rintro (h1 | h1); exact na h1; exact nb h1)]
  by_cases hab : a ≤ b
  · rw [if_pos (h.mpr hab), min_eq_left hab]
  · rw [if_neg (fun hc => hab (h.mp hc)), min_eq_right (le_of_not_le hab)]

theorem truncate_intCast (c : ℤ) : truncate (c : ℚ) = c := by
  unfold truncate
  split_ifs <;> simp

theorem mod_ofInt_eq_zero (a b : ℤ) (ha1 : -9007199254740992 ≤ a)
    (ha2 : a ≤ 9007199254740992) (hb0 : 0 < b) (hb2 : b ≤ 9007199254740992) :
    ofInt a % ofInt b = ofInt 0 ↔ a % b = 0 := by
  have hbq : (b : ℚ) ≠ 0 := by exact_mod_cast (ne_of_gt hb0)
  have hv : ofInt a % ofInt b =
      finite ((a : ℚ) - (b : ℚ) * (truncate ((a : ℚ) / (b : ℚ)) : ℚ)) := by
    rw [ofInt_eq a ha1 ha2, ofInt_eq b (by omega) hb2]
    show rem (finite (a : ℚ)) (finite (b : ℚ)) = _
    rw [rem_finite, if_neg hbq]
  have h0 : ofInt 0 = finite 0 := by decide!
  rw [hv, h0]
  constructor
  · intro h
    have h := Double.finite.inj h
    have : (a : ℚ) = ((b * truncate ((a : ℚ) / (b : ℚ)) : ℤ) : ℚ) := by push_cast; linarith
    have hab : a = b * truncate ((a : ℚ) / (b : ℚ)) := by exact_mod_cast this
    exact Int.emod_eq_zero_of_dvd ⟨_, hab⟩
  · intro h
    obtain ⟨c, hc⟩ := Int.dvd_of_emod_eq_zero h
    apply congrArg finite
    rw [hc]
    have : ((b * c : ℤ) : ℚ) / (b : ℚ) = (c : ℚ) := by push_cast; field_simp
    rw [this, truncate_intCast]; push_cast; ring

/-- The floor of a quotient of integers in the program, divisor at most `p`, a
power of two. -/
theorem floor_div_ofInt (a b p : ℤ) (k : ℕ) (hp : p = 2 ^ k) (hk : k ≤ 1074)
    (ha1 : -9007199254740992 ≤ a) (ha2 : a ≤ 9007199254740992)
    (hb0 : 0 < b) (hbp : b ≤ p) (hp2 : p ≤ 9007199254740992)
    (h1 : -9007199254740992 ≤ a / b * p) (h2 : (a / b + 1) * p ≤ 9007199254740992) :
    Math.floor (ofInt a / ofInt b) = ofInt (a / b) := by
  subst hp
  have hk1 : (1 : ℤ) ≤ 2 ^ k := one_le_pow₀ (by norm_num)
  have hbq : (0 : ℚ) < (b : ℚ) := by exact_mod_cast hb0
  have hb1 : (1 : ℚ) ≤ (b : ℚ) := by exact_mod_cast hb0
  have haq1 : (-9007199254740992 : ℚ) ≤ (a : ℚ) := by exact_mod_cast ha1
  have haq2 : (a : ℚ) ≤ (9007199254740992 : ℚ) := by exact_mod_cast ha2
  have hq1 : (-9007199254740992 : ℚ) ≤ (a : ℚ) / (b : ℚ) := by
    rw [le_div_iff₀ hbq]; nlinarith
  have hq2 : (a : ℚ) / (b : ℚ) ≤ (9007199254740992 : ℚ) := by
    rw [div_le_iff₀ hbq]; nlinarith
  rw [ofInt_eq a ha1 ha2, ofInt_eq b (by omega) (by omega),
    ofInt_eq (a / b) (by nlinarith) (by nlinarith)]
  show Math.floor (div (finite (a : ℚ)) (finite (b : ℚ))) = _
  rw [div_finite, if_neg (ne_of_gt hbq), round_of_abs_le _ hq1 hq2]
  show finite ((⌊roundNearest ((a : ℚ) / (b : ℚ))⌋ : ℤ) : ℚ) = _
  rw [floor_roundNearest_div a b k hk hb0 hbp h1 h2]

theorem eq_29_5 : (29.5 : Double) = finite (59 / 2) := by decide!

/-- The ceiling in `toFixed`: `Math.ceil(29.5 * a)`. -/
theorem ceil_mul_half (a : ℤ) (ha1 : -150000000000000 ≤ a) (ha2 : a ≤ 150000000000000) :
    Math.ceil (29.5 * ofInt a) = ofInt (-((-(59 * a)) / 2)) := by
  have haq1 : (-150000000000000 : ℚ) ≤ (a : ℚ) := by exact_mod_cast ha1
  have haq2 : (a : ℚ) ≤ (150000000000000 : ℚ) := by exact_mod_cast ha2
  rw [eq_29_5, ofInt_eq a (by omega) (by omega), ofInt_eq _ (by omega) (by omega)]
  show Math.ceil (round ((59 / 2 : ℚ) * (a : ℚ))) = _
  rw [round_of_abs_le _ (by linarith) (by linarith)]
  show finite ((⌈roundNearest ((59 / 2 : ℚ) * (a : ℚ))⌉ : ℤ) : ℚ) = _
  have e : (59 / 2 : ℚ) * (a : ℚ) = ((59 * a : ℤ) : ℚ) / ((2 : ℤ) : ℚ) := by push_cast; ring
  rw [e, ceil_roundNearest_div (59 * a) 2 1 (by norm_num) (by norm_num) (by norm_num)
    (by omega) (by omega)]

/-- The ceiling in `fixedToHijri`: `Math.ceil(a / 29.5)`. -/
theorem ceil_div_half (a : ℤ) (ha1 : -2000000000000000 ≤ a) (ha2 : a ≤ 2000000000000000) :
    Math.ceil (ofInt a / 29.5) = ofInt (-((-(2 * a)) / 59)) := by
  have haq1 : (-2000000000000000 : ℚ) ≤ (a : ℚ) := by exact_mod_cast ha1
  have haq2 : (a : ℚ) ≤ (2000000000000000 : ℚ) := by exact_mod_cast ha2
  have e : (a : ℚ) / (59 / 2 : ℚ) = ((2 * a : ℤ) : ℚ) / ((59 : ℤ) : ℚ) := by
    push_cast; field_simp; ring
  have hq1 : (-9007199254740992 : ℚ) ≤ (a : ℚ) / (59 / 2 : ℚ) := by
    rw [le_div_iff₀ (by norm_num)]; linarith
  have hq2 : (a : ℚ) / (59 / 2 : ℚ) ≤ (9007199254740992 : ℚ) := by
    rw [div_le_iff₀ (by norm_num)]; linarith
  rw [eq_29_5, ofInt_eq a (by omega) (by omega), ofInt_eq _ (by omega) (by omega)]
  show Math.ceil (div (finite (a : ℚ)) (finite (59 / 2 : ℚ))) = _
  rw [div_finite, if_neg (by norm_num), round_of_abs_le _ hq1 hq2]
  show finite ((⌈roundNearest ((a : ℚ) / (59 / 2 : ℚ))⌉ : ℤ) : ℚ) = _
  rw [e, ceil_roundNearest_div (2 * a) 59 6 (by norm_num) (by norm_num) (by norm_num)
    (by omega) (by omega)]

/-- Adding zero to a sum changes nothing: the sum is already rounded. -/
theorem add_add_zero (a b : Double) : a + b + 0 = a + b := by
  have h0 : (0 : Double) = finite 0 := by decide!
  rw [h0]
  show add (add a b) (finite 0) = add a b
  have key : ∀ q : ℚ, add (round q) (finite 0) = round q := by
    intro q
    unfold round
    split_ifs with h1 h2
    · rfl
    · rfl
    · show round (roundNearest q + 0) = finite (roundNearest q)
      rw [add_zero]
      unfold round
      rw [roundNearest_idem, if_neg h1, if_neg h2]
  cases a <;> cases b <;> first | exact key _ | rfl

end Double

namespace Double

theorem floor_div_4 (a : ℤ) (h1 : -5000000000000000 ≤ a) (h2 : a ≤ 5000000000000000) :
    Math.floor (ofInt a / ofInt 4) = ofInt (a / 4) :=
  floor_div_ofInt a 4 4 2 (by norm_num) (by norm_num) (by omega) (by omega) (by omega) (by omega) (by omega)
    (by omega) (by omega)

theorem floor_div_12 (a : ℤ) (h1 : -5000000000000000 ≤ a) (h2 : a ≤ 5000000000000000) :
    Math.floor (ofInt a / ofInt 12) = ofInt (a / 12) :=
  floor_div_ofInt a 12 16 4 (by norm_num) (by norm_num) (by omega) (by omega) (by omega) (by omega) (by omega)
    (by omega) (by omega)

theorem floor_div_30 (a : ℤ) (h1 : -5000000000000000 ≤ a) (h2 : a ≤ 5000000000000000) :
    Math.floor (ofInt a / ofInt 30) = ofInt (a / 30) :=
  floor_div_ofInt a 30 32 5 (by norm_num) (by norm_num) (by omega) (by omega) (by omega) (by omega) (by omega)
    (by omega) (by omega)

theorem floor_div_100 (a : ℤ) (h1 : -5000000000000000 ≤ a) (h2 : a ≤ 5000000000000000) :
    Math.floor (ofInt a / ofInt 100) = ofInt (a / 100) :=
  floor_div_ofInt a 100 128 7 (by norm_num) (by norm_num) (by omega) (by omega) (by omega) (by omega)
    (by omega) (by omega) (by omega)

theorem floor_div_400 (a : ℤ) (h1 : -5000000000000000 ≤ a) (h2 : a ≤ 5000000000000000) :
    Math.floor (ofInt a / ofInt 400) = ofInt (a / 400) :=
  floor_div_ofInt a 400 512 9 (by norm_num) (by norm_num) (by omega) (by omega) (by omega) (by omega)
    (by omega) (by omega) (by omega)

theorem floor_div_10631 (a : ℤ) (h1 : -5000000000000000 ≤ a) (h2 : a ≤ 5000000000000000) :
    Math.floor (ofInt a / ofInt 10631) = ofInt (a / 10631) :=
  floor_div_ofInt a 10631 16384 14 (by norm_num) (by norm_num) (by omega) (by omega) (by omega) (by omega)
    (by omega) (by omega) (by omega)

end Double

/-! ## The program agrees with the exact formulas inside the range -/

/-- Inside the range, `toFixed` computes the exact formula. -/
theorem HijriDate.toFixed_ofInt (y m d : ℤ)
    (hy1 : -20000000000000 ≤ y) (hy2 : y ≤ 20000000000000)
    (hm1 : -1000000000000 ≤ m) (hm2 : m ≤ 1000000000000)
    (hd1 : -1000000000000000 ≤ d) (hd2 : d ≤ 1000000000000000) :
    (HijriDate.mk (Double.ofInt y) (Double.ofInt m) (Double.ofInt d)).toFixed =
      Double.ofInt (Exact.hijriToFixed y m d) := by
  unfold HijriDate.toFixed Exact.hijriToFixed
  simp only [Double.ofNat_eq_ofInt]
  simp (disch := omega) only [Double.sub_ofInt, Double.ceil_mul_half, Double.add_ofInt,
    Double.mul_ofInt, Double.floor_div_30]

theorem hijriToFixed_ofInt (y m d : ℤ)
    (hy1 : -20000000000000 ≤ y) (hy2 : y ≤ 20000000000000)
    (hm1 : -1000000000000 ≤ m) (hm2 : m ≤ 1000000000000)
    (hd1 : -1000000000000000 ≤ d) (hd2 : d ≤ 1000000000000000) :
    hijriToFixed (Double.ofInt y) (Double.ofInt m) (Double.ofInt d) =
      Double.ofInt (Exact.hijriToFixed y m d) :=
  HijriDate.toFixed_ofInt y m d hy1 hy2 hm1 hm2 hd1 hd2

/-- Inside the range, `gregorianToFixed` computes the exact formula. -/
theorem gregorianToFixed_ofInt (y m d c : ℤ)
    (hy1 : -20000000000000 ≤ y) (hy2 : y ≤ 20000000000000)
    (hm1 : -1000000000000 ≤ m) (hm2 : m ≤ 1000000000000)
    (hd1 : -100000000000000 ≤ d) (hd2 : d ≤ 100000000000000)
    (hc1 : -100000000000000 ≤ c) (hc2 : c ≤ 100000000000000) :
    gregorianToFixed (Double.ofInt y) (Double.ofInt m) (Double.ofInt d) (some (Double.ofInt c)) =
      Double.ofInt (Exact.gregorianToFixed y m d c) := by
  unfold gregorianToFixed Exact.gregorianToFixed
  simp only [Option.getD_some, Double.ofNat_eq_ofInt, ne_eq]
  simp (disch := omega) only [Double.le_ofInt, Double.mod_ofInt_eq_zero, Double.neg_ofInt]
  split_ifs <;>
    simp (disch := omega) only [Double.sub_ofInt, Double.add_ofInt, Double.mul_ofInt,
      Double.floor_div_4, Double.floor_div_100, Double.floor_div_400, Double.floor_div_12]

/-- Inside the range, `fixedToHijri` computes the three steps of the spec
exactly. -/
theorem fixedToHijri_ofInt (f : ℤ) (hf1 : -100000000000000 ≤ f) (hf2 : f ≤ 100000000000000) :
    fixedToHijri (Double.ofInt f) =
      ⟨Double.ofInt (Exact.estimatedYear f), Double.ofInt (Exact.month f),
        Double.ofInt (Exact.day f)⟩ := by
  unfold fixedToHijri Exact.day Exact.month Exact.monthEstimate Exact.estimatedYear
  simp only [Double.ofNat_eq_ofInt]
  simp (disch := omega) only [Double.sub_ofInt, Double.add_ofInt, Double.mul_ofInt,
    Double.floor_div_10631, HijriDate.toFixed_ofInt, Exact.hijriToFixed, Double.ceil_div_half,
    Double.min_ofInt]

theorem monthEstimate_ofInt (f : ℤ) (hf1 : -100000000000000 ≤ f) (hf2 : f ≤ 100000000000000) :
    fixedToHijri.monthEstimate (Double.ofInt f) = Double.ofInt (Exact.monthEstimate f) := by
  unfold fixedToHijri.monthEstimate Exact.monthEstimate Exact.estimatedYear
  simp only [Double.ofNat_eq_ofInt]
  simp (disch := omega) only [Double.sub_ofInt, Double.add_ofInt, Double.mul_ofInt,
    Double.floor_div_10631, HijriDate.toFixed_ofInt, Exact.hijriToFixed, Double.ceil_div_half]

/-! ## Lemmas on the exact formulas -/

namespace Exact

theorem hijriYearLength_eq (y : ℤ) :
    hijriYearLength y = 354 + ((11 * y + 14) / 30 - (11 * y + 3) / 30) := by
  unfold hijriYearLength hijriToFixed
  omega

theorem hijriYearLength_cases (y : ℤ) :
    hijriYearLength y = 354 ∨ hijriYearLength y = 355 := by
  rw [hijriYearLength_eq]
  omega

theorem hijriToFixed_add_thirty (y m d : ℤ) :
    hijriToFixed (y + 30) m d = hijriToFixed y m d + 10631 := by
  unfold hijriToFixed
  omega

/-- The closed-form year estimate brackets the fixed day between the first
days of the estimated year and of the next one. -/
theorem year_estimate_bounds (f : ℤ) :
    hijriToFixed (estimatedYear f) 1 1 ≤ f ∧ f < hijriToFixed (estimatedYear f + 1) 1 1 := by
  unfold hijriToFixed estimatedYear
  omega

/-- A fixed day lying inside year `y` is given the year estimate `y`. -/
theorem year_estimate_of_bounds (f y : ℤ)
    (h1 : hijriToFixed y 1 1 ≤ f) (h2 : f < hijriToFixed (y + 1) 1 1) :
    estimatedYear f = y := by
  unfold hijriToFixed at h1 h2
  unfold estimatedYear
  omega

/-- Round trip on the real dates of the calendar, in exact arithmetic. -/
theorem roundtrip_real (y m d : ℤ) (hm1 : 1 ≤ m) (hm12 : m ≤ 12)
    (hd1 : 1 ≤ d) (hd : d ≤ hijriMonthLength y m) :
    estimatedYear (hijriToFixed y m d) = y ∧ month (hijriToFixed y m d) = m ∧
      day (hijriToFixed y m d) = d := by
  unfold hijriMonthLength at hd
  rw [hijriYearLength_eq] at hd
  have hy : estimatedYear (hijriToFixed y m d) = y := by
    apply year_estimate_of_bounds
    · unfold hijriToFixed; omega
    · unfold hijriToFixed
      split_ifs at hd <;> omega
  have hm : month (hijriToFixed y m d) = m := by
    unfold month monthEstimate
    rw [hy]
    unfold hijriToFixed
    split_ifs at hd <;> omega
  refine ⟨hy, hm, ?_⟩
  unfold day
  rw [hy, hm]
  unfold hijriToFixed
  omega

/-- Every date that the three steps produce is a real date of the calendar. -/
theorem result_real (f : ℤ) :
    1 ≤ month f ∧ month f ≤ 12 ∧ 1 ≤ day f ∧
      day f ≤ hijriMonthLength (estimatedYear f) (month f) := by
  have hb := year_estimate_bounds f
  unfold day month monthEstimate hijriMonthLength
  rw [hijriYearLength_eq]
  generalize estimatedYear f = y at hb ⊢
  unfold hijriToFixed at hb ⊢
  split_ifs <;> omega

/-- The day is chosen so that the forward transform gives the fixed day back. -/
theorem hijriToFixed_result (f : ℤ) :
    hijriToFixed (estimatedYear f) (month f) (day f) = f := by
  unfold day
  generalize estimatedYear f = y
  generalize month f = m
  unfold hijriToFixed
  omega

/-- Day 30 of a 29-day month has the fixed day of the first day of the
following month. -/
theorem hijriToFixed_overflow (y m : ℤ) (hm1 : 1 ≤ m) (hm12 : m ≤ 12)
    (hl : hijriMonthLength y m < 30) :
    hijriToFixed y m 30 =
      hijriToFixed (if m = 12 then y + 1 else y) (if m = 12 then 1 else m + 1) 1 := by
  unfold hijriMonthLength at hl
  rw [hijriYearLength_eq] at hl
  unfold hijriToFixed
  split_ifs at hl ⊢ <;> omega

theorem hijriMonthLength_bounds (y m : ℤ) :
    29 ≤ hijriMonthLength y m ∧ hijriMonthLength y m ≤ 30 := by
  unfold hijriMonthLength
  split_ifs <;> omega

/-- The number of 355-day years among the `n` years from `y` on is the excess
of their total length over `354 * n`. -/
theorem long_years_count (y : ℤ) (n : ℕ) :
    (((Finset.range n).filter (fun i : ℕ => hijriYearLength (y + i) = 355)).card : ℤ) =
      hijriToFixed (y + n) 1 1 - hijriToFixed y 1 1 - 354 * n := by
  induction n with
  | zero => simp
  | succ k ih =>
    rw [Finset.range_succ, Finset.filter_insert]
    have hl := hijriYearLength_cases (y + k)
    have hd : hijriYearLength (y + k) = hijriToFixed (y + (k + 1 : ℕ)) 1 1 -
        hijriToFixed (y + k) 1 1 := by
      unfold hijriYearLength
      push_cast
      rw [add_assoc]
    have hnot : k ∉ (Finset.range k).filter (fun i : ℕ => hijriYearLength (y + i) = 355) := by
      simp
    split_ifs with h355
    · rw [Finset.card_insert_of_not_mem hnot]
      push_cast at ih hd ⊢
      omega
    · push_cast at ih hd ⊢
      omega

/-- The unclamped month estimate lies in 1..13 and is 13 exactly on the 355th
day of a 355-day year, where the clamped result is month 12, day 30. -/
theorem monthEstimate_facts (f : ℤ) :
    1 ≤ monthEstimate f ∧ monthEstimate f ≤ 13 ∧
    (monthEstimate f = 13 ↔
      ∃ y : ℤ, hijriYearLength y = 355 ∧ f = hijriToFixed y 1 355) ∧
    (monthEstimate f = 13 → month f = 12 ∧ day f = 30) := by
  have hb := year_estimate_bounds f
  have hyl := hijriYearLength_eq (estimatedYear f)
  have hme : monthEstimate f =
      -((-(2 * (f - 29 - hijriToFixed (estimatedYear f) 1 1))) / 59) + 1 := rfl
  have hmon : month f = min (monthEstimate f) 12 := rfl
  have hday : day f = f - hijriToFixed (estimatedYear f) (month f) 1 + 1 := rfl
  generalize monthEstimate f = u at hme hmon ⊢
  generalize month f = mo at hmon hday ⊢
  generalize day f = dy at hday ⊢
  unfold hijriToFixed at hb hme hday
  refine ⟨by omega, by omega, ⟨?_, ?_⟩, by omega⟩
  · intro hu
    refine ⟨estimatedYear f, ?_, ?_⟩
    · omega
    · unfold hijriToFixed
      omega
  · rintro ⟨y, hy, hf⟩
    have hy2 := hijriYearLength_eq y
    have he : estimatedYear f = y := by
      apply year_estimate_of_bounds
      · rw [hf]; unfold hijriToFixed; omega
      · rw [hf]; unfold hijriToFixed; omega
    rw [he] at hme
    unfold hijriToFixed at hf
    omega

/-- The number of leap days before a year never decreases with the year. -/
theorem leapDays_mono (a b : ℤ) (h : a ≤ b) :
    a / 4 - a / 100 + a / 400 ≤ b / 4 - b / 100 + b / 400 := by
  omega

/-- Day 0 of a January is not later than day 0 of a January of a later year. -/
theorem gregorianToFixed_year_mono (y1 y2 : ℤ) (h : y1 ≤ y2) :
    gregorianToFixed y1 1 0 0 ≤ gregorianToFixed y2 1 0 0 := by
  have hl := leapDays_mono (y1 - 1) (y2 - 1) (by omega)
  unfold gregorianToFixed
  simp only [show (1 : ℤ) ≤ 2 by norm_num, if_true]
  omega

/-- Day 0 of "month 13" of a year is day 0 of January of the next year. -/
theorem gregorianToFixed_year_step (y : ℤ) :
    gregorianToFixed y 13 0 0 = gregorianToFixed (y + 1) 1 0 0 := by
  unfold gregorianToFixed
  split_ifs <;> omega

/-- Within a year, day 0 of a month is not later than day 0 of a later month. -/
theorem gregorianToFixed_month_mono (y m1 m2 : ℤ) (h1 : 1 ≤ m1) (h : m1 ≤ m2) :
    gregorianToFixed y m1 0 0 ≤ gregorianToFixed y m2 0 0 := by
  unfold gregorianToFixed
  split_ifs <;> omega

theorem gregorianToFixed_day_shift (y m d e c : ℤ) :
    gregorianToFixed y m d c = gregorianToFixed y m e 0 + (d - e) + c := by
  unfold gregorianToFixed
  omega

end Exact

/-- The last day of a month is day 0 of the following month. -/
theorem Exact.gregorianToFixed_month_end (y m : ℤ) (hm1 : 1 ≤ m) (hm12 : m ≤ 12) :
    Exact.gregorianToFixed y m (gregorianMonthLength y m) 0 =
      Exact.gregorianToFixed y (m + 1) 0 0 := by
  simp only [Exact.gregorianToFixed, gregorianMonthLength, isGregorianLeap]
  interval_cases m <;> simp <;> split_ifs <;> omega

/-- Strict monotonicity of the exact day count on real dates. -/
theorem Exact.gregorian_strict_order (y1 m1 d1 y2 m2 d2 : ℤ)
    (h1 : isGregorianDate y1 m1 d1) (h2 : isGregorianDate y2 m2 d2)
    (hlt : calendarBefore y1 m1 d1 y2 m2 d2) :
    Exact.gregorianToFixed y1 m1 d1 0 < Exact.gregorianToFixed y2 m2 d2 0 := by
  obtain ⟨a1, a2, a3, a4⟩ := h1
  obtain ⟨b1, b2, b3, _⟩ := h2
  have e1 := Exact.gregorianToFixed_month_end y1 m1 a1 a2
  have s1 := Exact.gregorianToFixed_day_shift y1 m1 d1 (gregorianMonthLength y1 m1) 0
  have s1' := Exact.gregorianToFixed_day_shift y1 m1 (gregorianMonthLength y1 m1) 0 0
  have s2 := Exact.gregorianToFixed_day_shift y2 m2 d2 0 0
  rcases hlt with hy | ⟨hy, hm | ⟨hm, hd⟩⟩
  · have k1 := Exact.gregorianToFixed_month_mono y1 (m1 + 1) 13 (by omega) (by omega)
    have k2 := Exact.gregorianToFixed_year_step y1
    have k3 := Exact.gregorianToFixed_year_mono (y1 + 1) y2 (by omega)
    have k4 := Exact.gregorianToFixed_month_mono y2 1 m2 (by omega) b1
    omega
  · subst hy
    have k1 := Exact.gregorianToFixed_month_mono y1 (m1 + 1) m2 (by omega) (by omega)
    omega
  · subst hy
    subst hm
    have k := Exact.gregorianToFixed_day_shift y1 m1 d1 d2 0
    have k' := Exact.gregorianToFixed_day_shift y1 m1 d2 d2 0
    omega

/-- Consecutive days in exact arithmetic: month end to next month start. -/
theorem Exact.gregorianToFixed_next_month (y m : ℤ) (hm1 : 1 ≤ m) (hm12 : m ≤ 12) :
    Exact.gregorianToFixed (if m = 12 then y + 1 else y) (if m = 12 then 1 else m + 1) 1 0 =
      Exact.gregorianToFixed y m (gregorianMonthLength y m) 0 + 1 := by
  rw [Exact.gregorianToFixed_month_end y m hm1 hm12]
  by_cases h12 : m = 12
  · subst h12
    simp only [if_true]
    have hs := Exact.gregorianToFixed_year_step y
    have hd := Exact.gregorianToFixed_day_shift (y + 1) 1 1 0 0
    norm_num at hs hd ⊢
    omega
  · simp only [if_neg h12]
    have hd := Exact.gregorianToFixed_day_shift y (m + 1) 1 0 0
    omega

theorem Exact.gregorianToFixed_leap (y : ℤ) :
    Exact.gregorianToFixed y 3 1 0 - Exact.gregorianToFixed y 2 28 0 =
      if isGregorianLeap y then 2 else 1 := by
  simp only [Exact.gregorianToFixed, isGregorianLeap]
  split_ifs <;> omega

/-! ## Values of the program inside the range -/

theorem hijriToFixed_val (y m d : ℤ)
    (hy1 : -20000000000000 ≤ y) (hy2 : y ≤ 20000000000000)
    (hm1 : -1000000000000 ≤ m) (hm2 : m ≤ 1000000000000)
    (hd1 : -1000000000000000 ≤ d) (hd2 : d ≤ 1000000000000000) :
    (hijriToFixed (Double.ofInt y) (Double.ofInt m) (Double.ofInt d)).val =
      ((Exact.hijriToFixed y m d : ℤ) : ℚ) := by
  rw [hijriToFixed_ofInt y m d hy1 hy2 hm1 hm2 hd1 hd2]
  apply Double.ofInt_val <;> unfold Exact.hijriToFixed <;> omega

theorem gregorianToFixed_val (y m d c : ℤ)
    (hy1 : -20000000000000 ≤ y) (hy2 : y ≤ 20000000000000)
    (hm1 : -1000000000000 ≤ m) (hm2 : m ≤ 1000000000000)
    (hd1 : -100000000000000 ≤ d) (hd2 : d ≤ 100000000000000)
    (hc1 : -100000000000000 ≤ c) (hc2 : c ≤ 100000000000000) :
    (gregorianToFixed (Double.ofInt y) (Double.ofInt m) (Double.ofInt d)
      (some (Double.ofInt c))).val = ((Exact.gregorianToFixed y m d c : ℤ) : ℚ) := by
  rw [gregorianToFixed_ofInt y m d c hy1 hy2 hm1 hm2 hd1 hd2 hc1 hc2]
  apply Double.ofInt_val <;> unfold Exact.gregorianToFixed <;> split_ifs <;> omega

theorem hijriYearLength_eq_exact (y : ℤ)
    (hy1 : -15000000000000 ≤ y) (hy2 : y ≤ 15000000000000) :
    hijriYearLength y = ((Exact.hijriYearLength y : ℤ) : ℚ) := by
  unfold hijriYearLength Exact.hijriYearLength
  simp only [Double.ofNat_eq_ofInt]
  rw [hijriToFixed_val (y + 1) 1 1 (by omega) (by omega) (by omega) (by omega) (by omega)
      (by omega),
    hijriToFixed_val y 1 1 (by omega) (by omega) (by omega) (by omega) (by omega) (by omega)]
  push_cast; rfl

theorem hijriMonthLength_eq_exact (y m : ℤ)
    (hy1 : -15000000000000 ≤ y) (hy2 : y ≤ 15000000000000) :
    hijriMonthLength y m = Exact.hijriMonthLength y m := by
  have h : hijriYearLength y = 355 ↔ Exact.hijriYearLength y = 355 := by
    rw [hijriYearLength_eq_exact y hy1 hy2]
    norm_cast
  unfold hijriMonthLength Exact.hijriMonthLength
  simp only [h]

/-- Round trip of the program on real dates, for years of magnitude up to
2 * 10^11. -/
theorem fixedToHijri_hijriToFixed_real (y m d : ℤ)
    (hy1 : -200000000000 ≤ y) (hy2 : y ≤ 200000000000)
    (hm1 : 1 ≤ m) (hm12 : m ≤ 12) (hd1 : 1 ≤ d) (hd : d ≤ Exact.hijriMonthLength y m) :
    fixedToHijri (hijriToFixed (Double.ofInt y) (Double.ofInt m) (Double.ofInt d)) =
      ⟨Double.ofInt y, Double.ofInt m, Double.ofInt d⟩ := by
  have hl := Exact.hijriMonthLength_bounds y m
  obtain ⟨e1, e2, e3⟩ := Exact.roundtrip_real y m d hm1 hm12 hd1 hd
  rw [hijriToFixed_ofInt y m d (by omega) (by omega) (by omega) (by omega) (by omega)
      (by omega),
    fixedToHijri_ofInt _ (by unfold Exact.hijriToFixed; omega)
      (by unfold Exact.hijriToFixed; omega), e1, e2, e3]

/-- The result of the program on a fixed day inside the range: a real date
whose forward transform is the fixed day. -/
theorem fixedToHijri_real (f : ℤ) (hf1 : -100000000000000 ≤ f) (hf2 : f ≤ 100000000000000) :
    ∃ y m d : ℤ, fixedToHijri (Double.ofInt f) = ⟨Double.ofInt y, Double.ofInt m, Double.ofInt d⟩ ∧
      y = Exact.estimatedYear f ∧ -1000000000000 < y ∧ y < 1000000000000 ∧
      1 ≤ m ∧ m ≤ 12 ∧ 1 ≤ d ∧ d ≤ Exact.hijriMonthLength y m ∧
      Exact.hijriToFixed y m d = f := by
  refine ⟨Exact.estimatedYear f, Exact.month f, Exact.day f, fixedToHijri_ofInt f hf1 hf2,
    rfl, ?_, ?_, ?_⟩
  · unfold Exact.estimatedYear; omega
  · unfold Exact.estimatedYear; omega
  · obtain ⟨h1, h2, h3, h4⟩ := Exact.result_real f
    exact ⟨h1, h2, h3, h4, Exact.hijriToFixed_result f⟩

/-! ## Round trips between fixed days and Hijri dates -/

/-- C1, as stated, fails: the fixed day 2^53 = 9007199254740992 is an integer
that the program receives exactly, and converting it to a Hijri date and back
returns 9007199254740991. -/
theorem toFixed_fixedToHijri_fails :
    (fixedToHijri (Double.ofInt 9007199254740992)).toFixed = Double.ofInt 9007199254740991 ∧
      (fixedToHijri (Double.ofInt 9007199254740992)).toFixed ≠
        Double.ofInt 9007199254740992 := by
  decide!

/-- C1, amended: for every integer fixed day `f` of magnitude at most 10^14,
converting `f` to a Hijri date with `fixedToHijri` and converting that date
back with `HijriDate.toFixed` returns exactly `f`. -/
theorem toFixed_fixedToHijri (f : ℤ) (hf : inFixedRange f) :
    (fixedToHijri (Double.ofInt f)).toFixed = Double.ofInt f := by
  obtain ⟨hf1, hf2⟩ := hf
  obtain ⟨y, m, d, he, _, hy1, hy2, hm1, hm2, hd1, hd2, hr⟩ := fixedToHijri_real f hf1 hf2
  have hl := Exact.hijriMonthLength_bounds y m
  rw [he, HijriDate.toFixed_ofInt y m d (by omega) (by omega) (by omega) (by omega) (by omega)
    (by omega), hr]

theorem toFixed_fixedToHijri_witness :
    inFixedRange 738886 ∧
      (fixedToHijri (Double.ofInt 738886)).toFixed = Double.ofInt 738886 :=
  ⟨by decide, toFixed_fixedToHijri 738886 (by decide)⟩

/-- C2, as stated, fails: the triple (1, 2, 30) satisfies the stated bounds
(year positive, month in 1..12, day in 1..30), but month 2 has 29 days, so its
fixed day 227074 is that of (1, 3, 1), which is what `fixedToHijri` returns. -/
theorem fixedToHijri_hijriToFixed_day30_fails :
    (0 : ℤ) < 1 ∧ (1 : ℤ) ≤ 2 ∧ (2 : ℤ) ≤ 12 ∧ (1 : ℤ) ≤ 30 ∧ (30 : ℤ) ≤ 30 ∧
      hijriToFixed 1 2 30 = 227074 ∧
      fixedToHijri (hijriToFixed 1 2 30) = ⟨1, 3, 1⟩ ∧
      fixedToHijri (hijriToFixed 1 2 30) ≠ ⟨1, 2, 30⟩ := by
  decide!

/-- C2, amended: for every Hijri triple (y, m, d) with y positive and at most
10^11, 1 ≤ m ≤ 12 and 1 ≤ d ≤ 30, `fixedToHijri (hijriToFixed y m d)` is
(y, m, d) when d does not exceed the length of month m of year y; otherwise
(day 30 of a 29-day month) it is the first day of the following month. -/
theorem fixedToHijri_hijriToFixed_upto30 (y m d : ℤ) (hy : 0 < y) (hyb : y ≤ 100000000000)
    (hm1 : 1 ≤ m) (hm12 : m ≤ 12) (hd1 : 1 ≤ d) (hd30 : d ≤ 30) :
    fixedToHijri (hijriToFixed (Double.ofInt y) (Double.ofInt m) (Double.ofInt d)) =
      if d ≤ hijriMonthLength y m then ⟨Double.ofInt y, Double.ofInt m, Double.ofInt d⟩
      else if m = 12 then ⟨Double.ofInt (y + 1), Double.ofInt 1, Double.ofInt 1⟩
      else ⟨Double.ofInt y, Double.ofInt (m + 1), Double.ofInt 1⟩ := by
  rw [hijriMonthLength_eq_exact y m (by omega) (by omega)]
  have hl := Exact.hijriMonthLength_bounds y m
  by_cases hd : d ≤ Exact.hijriMonthLength y m
  · rw [if_pos hd]
    exact fixedToHijri_hijriToFixed_real y m d (by omega) (by omega) hm1 hm12 hd1 hd
  · rw [if_neg hd]
    have hd30' : d = 30 := by omega
    subst hd30'
    have ho := Exact.hijriToFixed_overflow y m hm1 hm12 (by omega)
    have hb1 := Exact.hijriMonthLength_bounds (y + 1) 1
    have hb2 := Exact.hijriMonthLength_bounds y (m + 1)
    rw [hijriToFixed_ofInt y m 30 (by omega) (by omega) (by omega) (by omega) (by omega)
      (by omega), ho]
    by_cases h12 : m = 12
    · simp only [if_pos h12]
      rw [← hijriToFixed_ofInt (y + 1) 1 1 (by omega) (by omega) (by omega) (by omega)
        (by omega) (by omega)]
      exact fixedToHijri_hijriToFixed_real (y + 1) 1 1 (by omega) (by omega) (by omega)
        (by omega) (by omega) (by omega)
    · simp only [if_neg h12]
      rw [← hijriToFixed_ofInt y (m + 1) 1 (by omega) (by omega) (by omega) (by omega)
        (by omega) (by omega)]
      exact fixedToHijri_hijriToFixed_real y (m + 1) 1 (by omega) (by omega) (by omega)
        (by omega) (by omega) (by omega)

theorem fixedToHijri_hijriToFixed_upto30_witness :
    (0 : ℤ) < 1445 ∧ (1445 : ℤ) ≤ 100000000000 ∧ (1 : ℤ) ≤ 6 ∧ (6 : ℤ) ≤ 12 ∧
      (1 : ℤ) ≤ 30 ∧ (30 : ℤ) ≤ 30 ∧
      fixedToHijri (hijriToFixed (Double.ofInt 1445) (Double.ofInt 6) (Double.ofInt 30)) =
        if (30 : ℤ) ≤ hijriMonthLength 1445 6 then
          ⟨Double.ofInt 1445, Double.ofInt 6, Double.ofInt 30⟩
        else if (6 : ℤ) = 12 then ⟨Double.ofInt (1445 + 1), Double.ofInt 1, Double.ofInt 1⟩
        else ⟨Double.ofInt 1445, Double.ofInt (6 + 1), Double.ofInt 1⟩ :=
  ⟨by decide, by decide, by decide, by decide, by decide, by decide,
    fixedToHijri_hijriToFixed_upto30 1445 6 30 (by decide) (by decide) (by decide) (by decide)
      (by decide) (by decide)⟩

/-- C3, as stated, fails: (1099511627786, 12, 30) is a real date of the
calendar as the program numbers it (year 1099511627786 is 355 days long, so
month 12 has 30 days), its fixed day is 389630270726780, and `fixedToHijri`
returns (1099511627787, 0, 29) for it. -/
theorem hijri_real_dates_bijection_fails :
    (1 : ℤ) ≤ 12 ∧ (12 : ℤ) ≤ 12 ∧ (1 : ℤ) ≤ 30 ∧
      (30 : ℤ) ≤ hijriMonthLength 1099511627786 12 ∧
      hijriToFixed (Double.ofInt 1099511627786) (Double.ofInt 12) (Double.ofInt 30) =
        Double.ofInt 389630270726780 ∧
      fixedToHijri
          (hijriToFixed (Double.ofInt 1099511627786) (Double.ofInt 12) (Double.ofInt 30)) =
        ⟨Double.ofInt 1099511627787, Double.ofInt 0, Double.ofInt 29⟩ ∧
      fixedToHijri
          (hijriToFixed (Double.ofInt 1099511627786) (Double.ofInt 12) (Double.ofInt 30)) ≠
        ⟨Double.ofInt 1099511627786, Double.ofInt 12, Double.ofInt 30⟩ := by
  decide!

/-- C3, amended: `hijriToFixed` and `fixedToHijri` are mutually inverse on
the real dates of the calendar (month 1..12, day from 1 to the month length)
of years of magnitude at most 10^11: `fixedToHijri (hijriToFixed y m d)` is
(y, m, d); hence `hijriToFixed` is injective on these dates; and every fixed
day of magnitude at most 10^14 is the image of the real date that
`fixedToHijri` returns for it. -/
theorem hijri_real_dates_bijection :
    (∀ y m d : ℤ, inFieldRange y → 1 ≤ m → m ≤ 12 → 1 ≤ d → d ≤ hijriMonthLength y m →
      fixedToHijri (hijriToFixed (Double.ofInt y) (Double.ofInt m) (Double.ofInt d)) =
        ⟨Double.ofInt y, Double.ofInt m, Double.ofInt d⟩) ∧
    (∀ y1 m1 d1 y2 m2 d2 : ℤ,
      inFieldRange y1 → 1 ≤ m1 → m1 ≤ 12 → 1 ≤ d1 → d1 ≤ hijriMonthLength y1 m1 →
      inFieldRange y2 → 1 ≤ m2 → m2 ≤ 12 → 1 ≤ d2 → d2 ≤ hijriMonthLength y2 m2 →
      hijriToFixed (Double.ofInt y1) (Double.ofInt m1) (Double.ofInt d1) =
        hijriToFixed (Double.ofInt y2) (Double.ofInt m2) (Double.ofInt d2) →
      y1 = y2 ∧ m1 = m2 ∧ d1 = d2) ∧
    (∀ f : ℤ, inFixedRange f → ∃ y m d : ℤ,
      fixedToHijri (Double.ofInt f) = ⟨Double.ofInt y, Double.ofInt m, Double.ofInt d⟩ ∧
      1 ≤ m ∧ m ≤ 12 ∧ 1 ≤ d ∧ d ≤ hijriMonthLength y m ∧
      hijriToFixed (Double.ofInt y) (Double.ofInt m) (Double.ofInt d) = Double.ofInt f) := by
  have key : ∀ y m d : ℤ, inFieldRange y → 1 ≤ m → m ≤ 12 → 1 ≤ d → d ≤ hijriMonthLength y m →
      fixedToHijri (hijriToFixed (Double.ofInt y) (Double.ofInt m) (Double.ofInt d)) =
        ⟨Double.ofInt y, Double.ofInt m, Double.ofInt d⟩ := by
    intro y m d hy hm1 hm12 hd1 hd
    obtain ⟨hy1, hy2⟩ := hy
    rw [hijriMonthLength_eq_exact y m (by omega) (by omega)] at hd
    exact fixedToHijri_hijriToFixed_real y m d (by omega) (by omega) hm1 hm12 hd1 hd
  refine ⟨key, ?_, ?_⟩
  · intro y1 m1 d1 y2 m2 d2 a0 a1 a2 a3 a4 b0 b1 b2 b3 b4 h
    have e1 := key y1 m1 d1 a0 a1 a2 a3 a4
    have e2 := key y2 m2 d2 b0 b1 b2 b3 b4
    rw [h, e2] at e1
    injection e1 with hy hm hd
    obtain ⟨p1, p2⟩ := a0
    obtain ⟨q1, q2⟩ := b0
    have l1 := hijriMonthLength_eq_exact y1 m1 (by omega) (by omega)
    have l2 := hijriMonthLength_eq_exact y2 m2 (by omega) (by omega)
    have k1 := Exact.hijriMonthLength_bounds y1 m1
    have k2 := Exact.hijriMonthLength_bounds y2 m2
    refine ⟨?_, ?_, ?_⟩
    · exact ((Double.ofInt_inj y2 y1 (by omega) (by omega) (by omega) (by omega)).mp hy).symm
    · exact ((Double.ofInt_inj m2 m1 (by omega) (by omega) (by omega) (by omega)).mp hm).symm
    · exact ((Double.ofInt_inj d2 d1 (by omega) (by omega) (by omega) (by omega)).mp hd).symm
  · intro f hf
    obtain ⟨hf1, hf2⟩ := hf
    obtain ⟨y, m, d, he, _, hy1, hy2, hm1, hm2, hd1, hd2, hr⟩ := fixedToHijri_real f hf1 hf2
    have hl := Exact.hijriMonthLength_bounds y m
    refine ⟨y, m, d, he, hm1, hm2, hd1, ?_, ?_⟩
    · rw [hijriMonthLength_eq_exact y m (by omega) (by omega)]; exact hd2
    · rw [hijriToFixed_ofInt y m d (by omega) (by omega) (by omega) (by omega) (by omega)
        (by omega), hr]

theorem hijri_real_dates_bijection_witness :
    inFieldRange 2 ∧ (30 : ℤ) ≤ hijriMonthLength 2 12 ∧
      fixedToHijri (hijriToFixed (Double.ofInt 2) (Double.ofInt 12) (Double.ofInt 30)) =
        ⟨Double.ofInt 2, Double.ofInt 12, Double.ofInt 30⟩ :=
  have h : (30 : ℤ) ≤ hijriMonthLength 2 12 := by decide!
  ⟨by decide, h,
    hijri_real_dates_bijection.1 2 12 30 (by decide) (by decide) (by decide) (by decide) h⟩

/-- C4, as stated, fails: the fixed day 389630270726780 is at least 227015,
and the date that `fixedToHijri` returns for it has month 0. -/
theorem fixedToHijri_fields_in_range_fails :
    (227015 : ℤ) ≤ 389630270726780 ∧
      fixedToHijri (Double.ofInt 389630270726780) =
        ⟨Double.ofInt 1099511627787, Double.ofInt 0, Double.ofInt 29⟩ ∧
      ¬ (1 ≤ (fixedToHijri (Double.ofInt 389630270726780)).month.val) := by
  decide!

/-- C4, amended: for every integer fixed day `f` with 227015 ≤ f ≤ 10^14, the
date returned by `fixedToHijri f` has integer fields: a positive year, a month
between 1 and 12 inclusive and a day between 1 and 30 inclusive. -/
theorem fixedToHijri_fields_in_range (f : ℤ) (hf : 227015 ≤ f) (hf2 : f ≤ 100000000000000) :
    ∃ y m d : ℤ,
      fixedToHijri (Double.ofInt f) = ⟨Double.ofInt y, Double.ofInt m, Double.ofInt d⟩ ∧
      0 < y ∧ 1 ≤ m ∧ m ≤ 12 ∧ 1 ≤ d ∧ d ≤ 30 := by
  obtain ⟨y, m, d, he, hye, _, _, hm1, hm2, hd1, hd2, _⟩ := fixedToHijri_real f (by omega) hf2
  have hl := Exact.hijriMonthLength_bounds y m
  refine ⟨y, m, d, he, ?_, hm1, hm2, hd1, by omega⟩
  rw [hye]; unfold Exact.estimatedYear; omega

theorem fixedToHijri_fields_in_range_witness :
    (227015 : ℤ) ≤ 227015 ∧ (227015 : ℤ) ≤ 100000000000000 ∧
      ∃ y m d : ℤ,
        fixedToHijri (Double.ofInt 227015) =
          ⟨Double.ofInt y, Double.ofInt m, Double.ofInt d⟩ ∧
        0 < y ∧ 1 ≤ m ∧ m ≤ 12 ∧ 1 ≤ d ∧ d ≤ 30 :=
  ⟨by decide, by decide, fixedToHijri_fields_in_range 227015 (by decide) (by decide)⟩

/-- C5: converting Gregorian 2024-01-01 with correction 0 gives Hijri year
1445, month 6, day 19 (the fixed day in between is 738886). -/
theorem gregorian_2024_01_01_to_hijri :
    gregorianToFixed 2024 1 1 (some 0) = 738886 ∧
      fixedToHijri (gregorianToFixed 2024 1 1 (some 0)) = ⟨1445, 6, 19⟩ := by
  decide!

/-- C16, as stated, fails: for the fixed day f = 389630270726780 the year
estimate is y = 1099511627787, and the first day of that year is
389630270726781, after f. -/
theorem year_estimate_exact_fails :
    Math.floor ((30 * (Double.ofInt 389630270726780 - 227015) + 10646) / 10631) =
        Double.ofInt 1099511627787 ∧
      hijriToFixed (Double.ofInt 1099511627787) 1 1 = Double.ofInt 389630270726781 ∧
      ¬ (hijriToFixed
          (Math.floor ((30 * (Double.ofInt 389630270726780 - 227015) + 10646) / 10631))
          1 1 ≤ Double.ofInt 389630270726780) := by
  decide!

/-- C16, amended: the closed-form year estimate of `fixedToHijri` is exact on
the fixed days of magnitude at most 10^14: with
y = floor((30 (f - 227015) + 10646) / 10631), which is an integer and the
year that `fixedToHijri` returns, `hijriToFixed y 1 1 ≤ f` and
`f < hijriToFixed (y + 1) 1 1`. -/
theorem year_estimate_exact (f : ℤ) (hf : inFixedRange f) :
    ∃ y : ℤ,
      Math.floor ((30 * (Double.ofInt f - 227015) + 10646) / 10631) = Double.ofInt y ∧
      (fixedToHijri (Double.ofInt f)).year = Double.ofInt y ∧
      hijriToFixed (Double.ofInt y) 1 1 ≤ Double.ofInt f ∧
      Double.ofInt f < hijriToFixed (Double.ofInt (y + 1)) 1 1 := by
  obtain ⟨hf1, hf2⟩ := hf
  have hb := Exact.year_estimate_bounds f
  have hy : Math.floor ((30 * (Double.ofInt f - 227015) + 10646) / 10631) =
      Double.ofInt (Exact.estimatedYear f) := by
    unfold Exact.estimatedYear
    simp only [Double.ofNat_eq_ofInt]
    simp (disch := omega) only [Double.sub_ofInt, Double.add_ofInt, Double.mul_ofInt,
      Double.floor_div_10631]
  have hb1 : -1000000000000 < Exact.estimatedYear f := by unfold Exact.estimatedYear; omega
  have hb2 : Exact.estimatedYear f < 1000000000000 := by unfold Exact.estimatedYear; omega
  have k1 : -9007199254740992 ≤ Exact.hijriToFixed (Exact.estimatedYear f) 1 1 ∧
      Exact.hijriToFixed (Exact.estimatedYear f) 1 1 ≤ 9007199254740992 := by
    unfold Exact.hijriToFixed; omega
  have k2 : -9007199254740992 ≤ Exact.hijriToFixed (Exact.estimatedYear f + 1) 1 1 ∧
      Exact.hijriToFixed (Exact.estimatedYear f + 1) 1 1 ≤ 9007199254740992 := by
    unfold Exact.hijriToFixed; omega
  refine ⟨Exact.estimatedYear f, hy, hy, ?_, ?_⟩
  · simp only [Double.ofNat_eq_ofInt]
    rw [hijriToFixed_ofInt _ 1 1 (by omega) (by omega) (by omega) (by omega) (by omega)
      (by omega), Double.le_ofInt _ _ k1.1 k1.2 (by omega) (by omega)]
    exact hb.1
  · simp only [Double.ofNat_eq_ofInt]
    rw [hijriToFixed_ofInt _ 1 1 (by omega) (by omega) (by omega) (by omega) (by omega)
      (by omega), Double.lt_ofInt _ _ (by omega) (by omega) k2.1 k2.2]
    exact hb.2

theorem year_estimate_exact_witness :
    inFixedRange 738886 ∧ ∃ y : ℤ,
      Math.floor ((30 * (Double.ofInt 738886 - 227015) + 10646) / 10631) = Double.ofInt y ∧
      (fixedToHijri (Double.ofInt 738886)).year = Double.ofInt y ∧
      hijriToFixed (Double.ofInt y) 1 1 ≤ Double.ofInt 738886 ∧
      Double.ofInt 738886 < hijriToFixed (Double.ofInt (y + 1)) 1 1 :=
  ⟨by decide, year_estimate_exact 738886 (by decide)⟩

/-! ## The Hijri day count -/

/-- C10: the Hijri epoch is anchored at fixed day 227015:
`hijriToFixed 1 1 1 = 227015`. -/
theorem hijriToFixed_epoch : hijriToFixed 1 1 1 = 227015 := by
  decide!

/-- C11, as stated, fails: in year 26000000000000 the days 1 and 2 of month 1
have the same fixed day 9213533333559996. -/
theorem hijriToFixed_succ_day_fails :
    (hijriToFixed (Double.ofInt 26000000000000) (Double.ofInt 1) (Double.ofInt 1)).val =
        9213533333559996 ∧
      (hijriToFixed (Double.ofInt 26000000000000) (Double.ofInt 1) (Double.ofInt (1 + 1))).val =
        9213533333559996 ∧
      (hijriToFixed (Double.ofInt 26000000000000) (Double.ofInt 1) (Double.ofInt (1 + 1))).val ≠
        (hijriToFixed (Double.ofInt 26000000000000) (Double.ofInt 1) (Double.ofInt 1)).val
          + 1 := by
  decide!

/-- C11, amended: for every integer year y of magnitude at most 10^13 and all
integers m and d of magnitude at most 10^11,
`hijriToFixed y m (d + 1) = hijriToFixed y m d + 1`. -/
theorem hijriToFixed_succ_day (y m d : ℤ) (hy : inYearRange y) (hm : inFieldRange m)
    (hd : inFieldRange d) :
    (hijriToFixed (Double.ofInt y) (Double.ofInt m) (Double.ofInt (d + 1))).val =
      (hijriToFixed (Double.ofInt y) (Double.ofInt m) (Double.ofInt d)).val + 1 := by
  obtain ⟨hy1, hy2⟩ := hy
  obtain ⟨hm1, hm2⟩ := hm
  obtain ⟨hd1, hd2⟩ := hd
  rw [hijriToFixed_val y m (d + 1) (by omega) (by omega) (by omega) (by omega) (by omega)
      (by omega),
    hijriToFixed_val y m d (by omega) (by omega) (by omega) (by omega) (by omega) (by omega)]
  have : Exact.hijriToFixed y m (d + 1) = Exact.hijriToFixed y m d + 1 := by
    unfold Exact.hijriToFixed; omega
  rw [this]; push_cast; rfl

theorem hijriToFixed_succ_day_witness :
    inYearRange 1445 ∧ inFieldRange 6 ∧ inFieldRange 19 ∧
      (hijriToFixed (Double.ofInt 1445) (Double.ofInt 6) (Double.ofInt (19 + 1))).val =
        (hijriToFixed (Double.ofInt 1445) (Double.ofInt 6) (Double.ofInt 19)).val + 1 :=
  ⟨by decide, by decide, by decide,
    hijriToFixed_succ_day 1445 6 19 (by decide) (by decide) (by decide)⟩

/-- C12, as stated, fails: the years 26000000000000 and 26000000000001 have
lengths 352 and 356, none of the 30 years from 26000000000000 on has length
355, and 30 years later the first day of the year is 10632 days on. -/
theorem hijri_thirty_year_cycle_fails :
    hijriYearLength 26000000000000 = 352 ∧ hijriYearLength 26000000000001 = 356 ∧
      ((Finset.range 30).filter
        (fun i : ℕ => hijriYearLength (26000000000000 + i) = 355)).card = 0 ∧
      (hijriToFixed (Double.ofInt (26000000000000 + 30)) (Double.ofInt 1) (Double.ofInt 1)).val =
        (hijriToFixed (Double.ofInt 26000000000000) (Double.ofInt 1) (Double.ofInt 1)).val
          + 10632 := by
  decide!

/-- C12, amended: `hijriToFixed` realises the 30-year Hijri cycle on the years
of magnitude at most 10^13: every year length
`hijriToFixed (y + 1) 1 1 - hijriToFixed y 1 1` is 354 or 355, among the 30
consecutive years starting at any such year exactly 11 have length 355, and
`hijriToFixed (y + 30) m d = hijriToFixed y m d + 10631` (m and d of magnitude
at most 10^11). -/
theorem hijri_thirty_year_cycle :
    (∀ y : ℤ, inYearRange y →
      (hijriToFixed (Double.ofInt (y + 1)) 1 1).val - (hijriToFixed (Double.ofInt y) 1 1).val
          = 354 ∨
        (hijriToFixed (Double.ofInt (y + 1)) 1 1).val - (hijriToFixed (Double.ofInt y) 1 1).val
          = 355) ∧
    (∀ y : ℤ, inYearRange y → ((Finset.range 30).filter
      (fun i : ℕ => hijriYearLength (y + i) = 355)).card = 11) ∧
    (∀ y m d : ℤ, inYearRange y → inFieldRange m → inFieldRange d →
      (hijriToFixed (Double.ofInt (y + 30)) (Double.ofInt m) (Double.ofInt d)).val =
        (hijriToFixed (Double.ofInt y) (Double.ofInt m) (Double.ofInt d)).val + 10631) := by
  refine ⟨?_, ?_, ?_⟩
  · intro y hy
    obtain ⟨hy1, hy2⟩ := hy
    have h := hijriYearLength_eq_exact y (by omega) (by omega)
    unfold hijriYearLength at h
    rw [h]
    rcases Exact.hijriYearLength_cases y with hc | hc
    · left; rw [hc]; norm_num
    · right; rw [hc]; norm_num
  · intro y hy
    obtain ⟨hy1, hy2⟩ := hy
    have hfilter : (Finset.range 30).filter (fun i : ℕ => hijriYearLength (y + i) = 355) =
        (Finset.range 30).filter (fun i : ℕ => Exact.hijriYearLength (y + i) = 355) := by
      apply Finset.filter_congr
      intro i hi
      have hi30 : i < 30 := Finset.mem_range.mp hi
      rw [hijriYearLength_eq_exact (y + i) (by omega) (by omega)]
      norm_cast
    rw [hfilter]
    have h := Exact.long_years_count y 30
    have h30 := Exact.hijriToFixed_add_thirty y 1 1
    push_cast at h
    omega
  · intro y m d hy hm hd
    obtain ⟨hy1, hy2⟩ := hy
    obtain ⟨hm1, hm2⟩ := hm
    obtain ⟨hd1, hd2⟩ := hd
    rw [hijriToFixed_val (y + 30) m d (by omega) (by omega) (by omega) (by omega) (by omega)
        (by omega),
      hijriToFixed_val y m d (by omega) (by omega) (by omega) (by omega) (by omega) (by omega),
      Exact.hijriToFixed_add_thirty]
    push_cast; rfl

theorem hijri_thirty_year_cycle_witness :
    inYearRange 1 ∧ ((Finset.range 30).filter
      (fun i : ℕ => hijriYearLength (1 + i) = 355)).card = 11 :=
  ⟨by decide, hijri_thirty_year_cycle.2.1 1 (by decide)⟩

/-- C17, as stated, fails: in year 26000000000000 the distance from day 1 of
month 1 to day 1 of month 2 is 28, and from month 2 to month 3 it is 32. -/
theorem hijriToFixed_month_lengths_fails :
    (1 : ℤ) ≤ 1 ∧ (1 : ℤ) ≤ 11 ∧
      (hijriToFixed (Double.ofInt 26000000000000) (Double.ofInt (1 + 1)) 1).val -
        (hijriToFixed (Double.ofInt 26000000000000) (Double.ofInt 1) 1).val = 28 ∧
      (hijriToFixed (Double.ofInt 26000000000000) (Double.ofInt (2 + 1)) 1).val -
        (hijriToFixed (Double.ofInt 26000000000000) (Double.ofInt 2) 1).val = 32 := by
  decide!

/-- C17, amended: `hijriToFixed` gives the months alternating lengths: for
every integer year y of magnitude at most 10^13 and month m with 1 ≤ m ≤ 11,
the distance from day 1 of month m to day 1 of month m + 1 is 30 when m is odd
and 29 when m is even. -/
theorem hijriToFixed_month_lengths (y m : ℤ) (hy : inYearRange y) (hm1 : 1 ≤ m)
    (hm11 : m ≤ 11) :
    (hijriToFixed (Double.ofInt y) (Double.ofInt (m + 1)) 1).val -
      (hijriToFixed (Double.ofInt y) (Double.ofInt m) 1).val =
        if m % 2 = 1 then 30 else 29 := by
  obtain ⟨hy1, hy2⟩ := hy
  simp only [Double.ofNat_eq_ofInt]
  rw [hijriToFixed_val y (m + 1) 1 (by omega) (by omega) (by omega) (by omega) (by omega)
      (by omega),
    hijriToFixed_val y m 1 (by omega) (by omega) (by omega) (by omega) (by omega) (by omega)]
  have : Exact.hijriToFixed y (m + 1) 1 - Exact.hijriToFixed y m 1 =
      if m % 2 = 1 then 30 else 29 := by
    unfold Exact.hijriToFixed
    split_ifs <;> omega
  have hq : ((Exact.hijriToFixed y (m + 1) 1 : ℤ) : ℚ) - ((Exact.hijriToFixed y m 1 : ℤ) : ℚ) =
      ((Exact.hijriToFixed y (m + 1) 1 - Exact.hijriToFixed y m 1 : ℤ) : ℚ) := by push_cast; rfl
  rw [hq, this]
  split_ifs <;> norm_num

theorem hijriToFixed_month_lengths_witness :
    inYearRange 1445 ∧ (1 : ℤ) ≤ 2 ∧ (2 : ℤ) ≤ 11 ∧
      (hijriToFixed (Double.ofInt 1445) (Double.ofInt (2 + 1)) 1).val -
        (hijriToFixed (Double.ofInt 1445) (Double.ofInt 2) 1).val =
          if (2 : ℤ) % 2 = 1 then 30 else 29 :=
  ⟨by decide, by decide, by decide,
    hijriToFixed_month_lengths 1445 2 (by decide) (by decide) (by decide)⟩

/-- C18, as stated, fails: for the fixed day 389630270726780 the unclamped
month estimate is 0, outside 1..13; the clamp does not act and the result has
month 0. -/
theorem month_clamp_only_at_year_end_fails :
    fixedToHijri.monthEstimate (Double.ofInt 389630270726780) = Double.ofInt 0 ∧
      ¬ (1 ≤ (fixedToHijri.monthEstimate (Double.ofInt 389630270726780)).val) ∧
      (fixedToHijri (Double.ofInt 389630270726780)).month = Double.ofInt 0 := by
  decide!

/-- C18, amended: the clamp to 12 in `fixedToHijri` only acts at a year
boundary, on the fixed days of magnitude at most 10^14: the month returned is
the minimum of the unclamped estimate and 12, the estimate is an integer
between 1 and 13, it is 13 exactly when the estimated year is 355 days long
and f is its 355th day, and then the result is month 12, day 30. -/
theorem month_clamp_only_at_year_end (f : ℤ) (hf : inFixedRange f) :
    (fixedToHijri (Double.ofInt f)).month =
      Math.min (fixedToHijri.monthEstimate (Double.ofInt f)) 12 ∧
    ∃ u y : ℤ, fixedToHijri.monthEstimate (Double.ofInt f) = Double.ofInt u ∧
      (fixedToHijri (Double.ofInt f)).year = Double.ofInt y ∧
      1 ≤ u ∧ u ≤ 13 ∧
      (u = 13 ↔ hijriYearLength y = 355 ∧
        hijriToFixed (Double.ofInt y) 1 355 = Double.ofInt f) ∧
      (u = 13 → (fixedToHijri (Double.ofInt f)).month = 12 ∧
        (fixedToHijri (Double.ofInt f)).day = 30) := by
  obtain ⟨hf1, hf2⟩ := hf
  refine ⟨rfl, Exact.monthEstimate f, Exact.estimatedYear f, monthEstimate_ofInt f hf1 hf2, ?_, ?_⟩
  · rw [fixedToHijri_ofInt f hf1 hf2]
  obtain ⟨h1, h2, h3, h4⟩ := Exact.monthEstimate_facts f
  have hb := Exact.year_estimate_bounds f
  have hb1 : -1000000000000 < Exact.estimatedYear f := by unfold Exact.estimatedYear; omega
  have hb2 : Exact.estimatedYear f < 1000000000000 := by unfold Exact.estimatedYear; omega
  refine ⟨h1, h2, ?_, ?_⟩
  · rw [hijriYearLength_eq_exact _ (by omega) (by omega)]
    simp only [Double.ofNat_eq_ofInt]
    have k : -9007199254740992 ≤ Exact.hijriToFixed (Exact.estimatedYear f) 1 355 ∧
        Exact.hijriToFixed (Exact.estimatedYear f) 1 355 ≤ 9007199254740992 := by
      unfold Exact.hijriToFixed; omega
    rw [hijriToFixed_ofInt _ 1 355 (by omega) (by omega) (by omega) (by omega) (by omega)
      (by omega), Double.ofInt_inj _ _ k.1 k.2 (by omega) (by omega)]
    have hyl := Exact.hijriYearLength_eq (Exact.estimatedYear f)
    have hme : Exact.monthEstimate f =
        -((-(2 * (f - 29 - Exact.hijriToFixed (Exact.estimatedYear f) 1 1))) / 59) + 1 := rfl
    have e1 : (((Exact.hijriYearLength (Exact.estimatedYear f) : ℤ) : ℚ) = 355) ↔
        Exact.hijriYearLength (Exact.estimatedYear f) = 355 := by norm_cast
    rw [e1]
    generalize Exact.monthEstimate f = u at hme ⊢
    unfold Exact.hijriToFixed at hb hme ⊢
    omega
  · intro hu
    obtain ⟨k1, k2⟩ := h4 hu
    rw [fixedToHijri_ofInt f hf1 hf2, k1, k2]
    simp only [Double.ofNat_eq_ofInt]
    exact ⟨trivial, trivial⟩

theorem month_clamp_only_at_year_end_witness :
    inFixedRange 227723 ∧
      ((fixedToHijri (Double.ofInt 227723)).month =
        Math.min (fixedToHijri.monthEstimate (Double.ofInt 227723)) 12 ∧
      ∃ u y : ℤ, fixedToHijri.monthEstimate (Double.ofInt 227723) = Double.ofInt u ∧
        (fixedToHijri (Double.ofInt 227723)).year = Double.ofInt y ∧
        1 ≤ u ∧ u ≤ 13 ∧
        (u = 13 ↔ hijriYearLength y = 355 ∧
          hijriToFixed (Double.ofInt y) 1 355 = Double.ofInt 227723) ∧
        (u = 13 → (fixedToHijri (Double.ofInt 227723)).month = 12 ∧
          (fixedToHijri (Double.ofInt 227723)).day = 30)) :=
  ⟨by decide, month_clamp_only_at_year_end 227723 (by decide)⟩

/-! ## The Gregorian day count -/

/-- C6, as stated, fails: in year 25000000000000 the fixed day of 2 March is
two more than that of 1 March. -/
theorem gregorianToFixed_consecutive_fails :
    (gregorianToFixed (Double.ofInt 25000000000000) (Double.ofInt 3) (Double.ofInt 1)
        (some 0)).val = 9131062499999696 ∧
      (gregorianToFixed (Double.ofInt 25000000000000) (Double.ofInt 3) (Double.ofInt (1 + 1))
        (some 0)).val = 9131062499999698 ∧
      (gregorianToFixed (Double.ofInt 25000000000000) (Double.ofInt 3) (Double.ofInt (1 + 1))
        (some 0)).val ≠
        (gregorianToFixed (Double.ofInt 25000000000000) (Double.ofInt 3) (Double.ofInt 1)
          (some 0)).val + 1 := by
  decide!

/-- C6, amended: `gregorianToFixed` numbers consecutive Gregorian days
consecutively in the years of magnitude at most 10^13: for month m in 1..12,
day 1 of the following month (1 January of y + 1 when m = 12) has the fixed
day of the last day of month m plus one, and within a month the day after d
has the fixed day of d plus one (d of magnitude at most 10^11). -/
theorem gregorianToFixed_consecutive (y m : ℤ) (hy : inYearRange y) (hm1 : 1 ≤ m)
    (hm12 : m ≤ 12) :
    (gregorianToFixed (Double.ofInt (if m = 12 then y + 1 else y))
        (Double.ofInt (if m = 12 then 1 else m + 1)) (Double.ofInt 1) (some 0)).val =
      (gregorianToFixed (Double.ofInt y) (Double.ofInt m)
        (Double.ofInt (gregorianMonthLength y m)) (some 0)).val + 1 ∧
    ∀ d : ℤ, inFieldRange d →
      (gregorianToFixed (Double.ofInt y) (Double.ofInt m) (Double.ofInt (d + 1)) (some 0)).val =
        (gregorianToFixed (Double.ofInt y) (Double.ofInt m) (Double.ofInt d) (some 0)).val
          + 1 := by
  obtain ⟨hy1, hy2⟩ := hy
  have hL : 28 ≤ gregorianMonthLength y m ∧ gregorianMonthLength y m ≤ 31 := by
    unfold gregorianMonthLength; split_ifs <;> omega
  simp only [Double.ofNat_eq_ofInt]
  constructor
  · rw [gregorianToFixed_val _ _ 1 0 (by split_ifs <;> omega) (by split_ifs <;> omega)
        (by split_ifs <;> omega) (by split_ifs <;> omega) (by omega) (by omega) (by omega)
        (by omega),
      gregorianToFixed_val y m _ 0 (by omega) (by omega) (by omega) (by omega) (by omega)
        (by omega) (by omega) (by omega),
      Exact.gregorianToFixed_next_month y m hm1 hm12]
    push_cast; rfl
  · intro d hd
    obtain ⟨hd1, hd2⟩ := hd
    rw [gregorianToFixed_val y m (d + 1) 0 (by omega) (by omega) (by omega) (by omega)
        (by omega) (by omega) (by omega) (by omega),
      gregorianToFixed_val y m d 0 (by omega) (by omega) (by omega) (by omega) (by omega)
        (by omega) (by omega) (by omega),
      Exact.gregorianToFixed_day_shift y m (d + 1) d 0,
      Exact.gregorianToFixed_day_shift y m d d 0]
    push_cast; ring

theorem gregorianToFixed_consecutive_witness :
    inYearRange 2024 ∧ (1 : ℤ) ≤ 2 ∧ (2 : ℤ) ≤ 12 ∧
      ((gregorianToFixed (Double.ofInt (if (2 : ℤ) = 12 then 2024 + 1 else 2024))
          (Double.ofInt (if (2 : ℤ) = 12 then 1 else 2 + 1)) (Double.ofInt 1) (some 0)).val =
        (gregorianToFixed (Double.ofInt 2024) (Double.ofInt 2)
          (Double.ofInt (gregorianMonthLength 2024 2)) (some 0)).val + 1 ∧
      ∀ d : ℤ, inFieldRange d →
        (gregorianToFixed (Double.ofInt 2024) (Double.ofInt 2) (Double.ofInt (d + 1))
          (some 0)).val =
          (gregorianToFixed (Double.ofInt 2024) (Double.ofInt 2) (Double.ofInt d) (some 0)).val
            + 1) :=
  ⟨by decide, by decide, by decide,
    gregorianToFixed_consecutive 2024 2 (by decide) (by decide) (by decide)⟩

/-- C7, as stated, fails: 28 February and 1 March of year 25000000000000 are
real Gregorian dates in calendar order, and both have the fixed day
9131062499999696. -/
theorem gregorianToFixed_strictMono_fails :
    isGregorianDate 25000000000000 2 28 ∧ isGregorianDate 25000000000000 3 1 ∧
      calendarBefore 25000000000000 2 28 25000000000000 3 1 ∧
      gregorianToFixed (Double.ofInt 25000000000000) (Double.ofInt 2) (Double.ofInt 28)
          (some 0) = Double.ofInt 9131062499999696 ∧
      gregorianToFixed (Double.ofInt 25000000000000) (Double.ofInt 3) (Double.ofInt 1)
          (some 0) = Double.ofInt 9131062499999696 ∧
      ¬ (gregorianToFixed (Double.ofInt 25000000000000) (Double.ofInt 2) (Double.ofInt 28)
          (some 0) <
        gregorianToFixed (Double.ofInt 25000000000000) (Double.ofInt 3) (Double.ofInt 1)
          (some 0)) := by
  refine ⟨?_, ?_, ?_, by decide!, by decide!, by decide!⟩
  · unfold isGregorianDate gregorianMonthLength; decide
  · unfold isGregorianDate gregorianMonthLength; decide
  · unfold calendarBefore; decide

/-- C7, amended: `gregorianToFixed` is strictly increasing in calendar order
on the years of magnitude at most 10^13: for two real Gregorian dates (month
1..12, day within the length of the month under the leap rule) of which the
first precedes the second lexicographically, the fixed day of the first is
smaller than that of the second. -/
theorem gregorianToFixed_strictMono (y1 m1 d1 y2 m2 d2 : ℤ)
    (hy1 : inYearRange y1) (hy2 : inYearRange y2)
    (h1 : isGregorianDate y1 m1 d1) (h2 : isGregorianDate y2 m2 d2)
    (hlt : calendarBefore y1 m1 d1 y2 m2 d2) :
    gregorianToFixed (Double.ofInt y1) (Double.ofInt m1) (Double.ofInt d1) (some 0) <
      gregorianToFixed (Double.ofInt y2) (Double.ofInt m2) (Double.ofInt d2) (some 0) := by
  obtain ⟨p1, p2⟩ := hy1
  obtain ⟨q1, q2⟩ := hy2
  have hlt' := Exact.gregorian_strict_order y1 m1 d1 y2 m2 d2 h1 h2 hlt
  obtain ⟨a1, a2, a3, a4⟩ := h1
  obtain ⟨b1, b2, b3, b4⟩ := h2
  have hL1 : gregorianMonthLength y1 m1 ≤ 31 := by
    unfold gregorianMonthLength; split_ifs <;> omega
  have hL2 : gregorianMonthLength y2 m2 ≤ 31 := by
    unfold gregorianMonthLength; split_ifs <;> omega
  have k1 : -9007199254740992 ≤ Exact.gregorianToFixed y1 m1 d1 0 ∧
      Exact.gregorianToFixed y1 m1 d1 0 ≤ 9007199254740992 := by
    unfold Exact.gregorianToFixed; split_ifs <;> omega
  have k2 : -9007199254740992 ≤ Exact.gregorianToFixed y2 m2 d2 0 ∧
      Exact.gregorianToFixed y2 m2 d2 0 ≤ 9007199254740992 := by
    unfold Exact.gregorianToFixed; split_ifs <;> omega
  simp only [Double.ofNat_eq_ofInt]
  rw [gregorianToFixed_ofInt y1 m1 d1 0 (by omega) (by omega) (by omega) (by omega) (by omega)
      (by omega) (by omega) (by omega),
    gregorianToFixed_ofInt y2 m2 d2 0 (by omega) (by omega) (by omega) (by omega) (by omega)
      (by omega) (by omega) (by omega),
    Double.lt_ofInt _ _ k1.1 k1.2 k2.1 k2.2]
  exact hlt'

theorem gregorianToFixed_strictMono_witness :
    inYearRange 2023 ∧ inYearRange 2024 ∧
      isGregorianDate 2023 12 31 ∧ isGregorianDate 2024 1 1 ∧
      calendarBefore 2023 12 31 2024 1 1 ∧
      gregorianToFixed (Double.ofInt 2023) (Double.ofInt 12) (Double.ofInt 31) (some 0) <
        gregorianToFixed (Double.ofInt 2024) (Double.ofInt 1) (Double.ofInt 1) (some 0) :=
  have h1 : isGregorianDate 2023 12 31 := by
    unfold isGregorianDate gregorianMonthLength; decide
  have h2 : isGregorianDate 2024 1 1 := by
    unfold isGregorianDate gregorianMonthLength; decide
  have h3 : calendarBefore 2023 12 31 2024 1 1 := by
    unfold calendarBefore; decide
  ⟨by decide, by decide, h1, h2, h3,
    gregorianToFixed_strictMono 2023 12 31 2024 1 1 (by decide) (by decide) h1 h2 h3⟩

/-- C8, as stated, fails: year 25000000000000 is divisible by 400, and the
distance from 28 February to 1 March of that year is 0, not 2. -/
theorem gregorianToFixed_leap_rule_fails :
    isGregorianLeap 25000000000000 ∧
      (gregorianToFixed (Double.ofInt 25000000000000) 3 1 (some 0)).val -
        (gregorianToFixed (Double.ofInt 25000000000000) 2 28 (some 0)).val = 0 := by
  refine ⟨by unfold isGregorianLeap; decide, by decide!⟩

/-- C8, amended: `gregorianToFixed` applies the Gregorian leap rule: for
every integer year y of magnitude at most 10^13 the distance from 28 February
to 1 March is 2 when y is divisible by 4 and not by 100, or divisible by 400,
and 1 otherwise; it is 2 for 2000 and 2400 and 1 for 1900 and 2100. -/
theorem gregorianToFixed_leap_rule :
    (∀ y : ℤ, inYearRange y →
      (gregorianToFixed (Double.ofInt y) 3 1 (some 0)).val -
        (gregorianToFixed (Double.ofInt y) 2 28 (some 0)).val =
          if isGregorianLeap y then 2 else 1) ∧
    (gregorianToFixed 2000 3 1 (some 0)).val - (gregorianToFixed 2000 2 28 (some 0)).val = 2 ∧
    (gregorianToFixed 2400 3 1 (some 0)).val - (gregorianToFixed 2400 2 28 (some 0)).val = 2 ∧
    (gregorianToFixed 1900 3 1 (some 0)).val - (gregorianToFixed 1900 2 28 (some 0)).val = 1 ∧
    (gregorianToFixed 2100 3 1 (some 0)).val - (gregorianToFixed 2100 2 28 (some 0)).val = 1 := by
  refine ⟨?_, by decide!, by decide!, by decide!, by decide!⟩
  intro y hy
  obtain ⟨hy1, hy2⟩ := hy
  simp only [Double.ofNat_eq_ofInt]
  rw [gregorianToFixed_val y 3 1 0 (by omega) (by omega) (by omega) (by omega) (by omega)
      (by omega) (by omega) (by omega),
    gregorianToFixed_val y 2 28 0 (by omega) (by omega) (by omega) (by omega) (by omega)
      (by omega) (by omega) (by omega)]
  have h := Exact.gregorianToFixed_leap y
  have hq : ((Exact.gregorianToFixed y 3 1 0 : ℤ) : ℚ) - ((Exact.gregorianToFixed y 2 28 0 : ℤ) : ℚ)
      = ((Exact.gregorianToFixed y 3 1 0 - Exact.gregorianToFixed y 2 28 0 : ℤ) : ℚ) := by
    push_cast; rfl
  rw [hq, h]
  split_ifs <;> norm_num

theorem gregorianToFixed_leap_rule_witness :
    inYearRange 2024 ∧
      (gregorianToFixed (Double.ofInt 2024) 3 1 (some 0)).val -
        (gregorianToFixed (Double.ofInt 2024) 2 28 (some 0)).val =
          if isGregorianLeap 2024 then 2 else 1 :=
  ⟨by decide, gregorianToFixed_leap_rule.1 2024 (by decide)⟩

/-- C9: the correction is a pure additive day offset: for all numbers y, m,
d and c (in particular all integers), `gregorianToFixed y m d c =
gregorianToFixed y m d 0 + c`, and the call that omits the correction
argument equals the call that passes 0. -/
theorem gregorianToFixed_correction (y m d c : Double) :
    gregorianToFixed y m d (some c) = gregorianToFixed y m d (some 0) + c ∧
      gregorianToFixed y m d none = gregorianToFixed y m d (some 0) := by
  constructor
  · unfold gregorianToFixed
    simp only [Option.getD_some]
    rw [Double.add_add_zero]
  · rfl

/-- C15, as stated, fails: in year 25000000000000 day 31 of April has the
fixed day 9131062499999760 and 1 May has 9131062499999756. -/
theorem gregorianToFixed_no_validation_fails :
    (gregorianToFixed (Double.ofInt 25000000000000) 4 31 (some (Double.ofInt 0))).val =
        9131062499999760 ∧
      (gregorianToFixed (Double.ofInt 25000000000000) 5 1 (some (Double.ofInt 0))).val =
        9131062499999756 ∧
      gregorianToFixed (Double.ofInt 25000000000000) 4 31 (some (Double.ofInt 0)) ≠
        gregorianToFixed (Double.ofInt 25000000000000) 5 1 (some (Double.ofInt 0)) := by
  decide!

/-- C15, amended: `gregorianToFixed` performs no validation and never fails:
for every integer year y of magnitude at most 10^13 and all integers m, d and
c of magnitude at most 10^11, whether or not (y, m, d) is a date, its value is
the integer that the formula of the spec gives in exact arithmetic; so an
out-of-range day is carried into the next month: for every such year y and
correction c, day 31 of April has the fixed day of 1 May. -/
theorem gregorianToFixed_no_validation :
    (∀ y m d c : ℤ, inYearRange y → inFieldRange m → inFieldRange d → inFieldRange c →
      gregorianToFixed (Double.ofInt y) (Double.ofInt m) (Double.ofInt d)
          (some (Double.ofInt c)) = Double.ofInt (Exact.gregorianToFixed y m d c) ∧
        (gregorianToFixed (Double.ofInt y) (Double.ofInt m) (Double.ofInt d)
          (some (Double.ofInt c))).val = ((Exact.gregorianToFixed y m d c : ℤ) : ℚ)) ∧
    (∀ y c : ℤ, inYearRange y → inFieldRange c →
      gregorianToFixed (Double.ofInt y) 4 31 (some (Double.ofInt c)) =
        gregorianToFixed (Double.ofInt y) 5 1 (some (Double.ofInt c))) := by
  constructor
  · intro y m d c hy hm hd hc
    obtain ⟨hy1, hy2⟩ := hy
    obtain ⟨hm1, hm2⟩ := hm
    obtain ⟨hd1, hd2⟩ := hd
    obtain ⟨hc1, hc2⟩ := hc
    exact ⟨gregorianToFixed_ofInt y m d c (by omega) (by omega) (by omega) (by omega) (by omega)
        (by omega) (by omega) (by omega),
      gregorianToFixed_val y m d c (by omega) (by omega) (by omega) (by omega) (by omega)
        (by omega) (by omega) (by omega)⟩
  · intro y c hy hc
    obtain ⟨hy1, hy2⟩ := hy
    obtain ⟨hc1, hc2⟩ := hc
    simp only [Double.ofNat_eq_ofInt]
    rw [gregorianToFixed_ofInt y 4 31 c (by omega) (by omega) (by omega) (by omega) (by omega)
        (by omega) (by omega) (by omega),
      gregorianToFixed_ofInt y 5 1 c (by omega) (by omega) (by omega) (by omega) (by omega)
        (by omega) (by omega) (by omega)]
    congr 1
    unfold Exact.gregorianToFixed
    split_ifs <;> omega

theorem gregorianToFixed_no_validation_witness :
    inYearRange 2024 ∧ inFieldRange 0 ∧
      gregorianToFixed (Double.ofInt 2024) 4 31 (some (Double.ofInt 0)) =
        gregorianToFixed (Double.ofInt 2024) 5 1 (some (Double.ofInt 0)) :=
  ⟨by decide, by decide, gregorianToFixed_no_validation.2 2024 0 (by decide) (by decide)⟩

/-! ## Formatting and configuration -/

theorem jsIndex_ofInt (table : List String) (i : ℤ) (h0 : 0 ≤ i)
    (h1 : i ≤ 9007199254740992) :
    jsIndex table (Double.ofInt i) = table.get? i.toNat := by
  rw [Double.ofInt_eq i (by omega) h1]
  show (if ((i : ℚ)).den = 1 ∧ 0 ≤ ((i : ℚ)).num then table.get? ((i : ℚ)).num.toNat else none) = _
  simp [h0]

theorem HIJRI_MONTHS_cases (tag : String) (table : List String)
    (h : HIJRI_MONTHS tag = some table) :
    table = HIJRI_MONTHS.ar ∨ table = HIJRI_MONTHS.ru := by
  unfold HIJRI_MONTHS at h
  split_ifs at h
  · left; exact (Option.some.inj h).symm
  · right; exact (Option.some.inj h).symm

/-- In both tables every index 0..11 holds a non-empty name, so that the
operator `||` keeps it. -/
theorem monthName_of_table (config : Config) (h : HijriDate) (m : ℤ) (table : List String)
    (hm : h.month = Double.ofInt m) (hm1 : 1 ≤ m) (hm12 : m ≤ 12)
    (ht : HIJRI_MONTHS config.hijriLang = some table) :
    ∃ name : String, table.get? (m - 1).toNat = some name ∧
      h.monthName config = some name := by
  have hidx : h.month - 1 = Double.ofInt (m - 1) := by
    rw [hm, Double.ofNat_eq_ofInt]
    exact Double.sub_ofInt m 1 (by omega) (by omega) (by omega) (by omega)
  simp only [HijriDate.monthName, ht, Option.bind, hidx]
  rw [jsIndex_ofInt _ (m - 1) (by omega) (by omega),
    jsIndex_ofInt _ (m - 1) (by omega) (by omega)]
  rcases HIJRI_MONTHS_cases _ _ ht with rfl | rfl <;>
    interval_cases m <;>
    simp [jsOr, HIJRI_MONTHS.ar, HIJRI_MONTHS.ru]

/-- C13: the month-name lookup falls back to the Arabic table: for a date with
month in 1..12 and a language tag without table (such as "xx"), `toString`
gives the same text as with the tag "ar"; for a tag with a table ("ar", "ru")
the month name is the entry of that table at index month - 1, and the text is
day, month name and year separated by blanks. -/
theorem toString_month_name_fallback (numberToString : Double → String) (config : Config)
    (h : HijriDate) (m : ℤ) (hm : h.month = Double.ofInt m) (hm1 : 1 ≤ m) (hm12 : m ≤ 12) :
    (HIJRI_MONTHS config.hijriLang = none →
      h.toString numberToString config =
        h.toString numberToString { config with hijriLang := "ar" }) ∧
    (∀ table : List String, HIJRI_MONTHS config.hijriLang = some table →
      ∃ name : String, table.get? (m - 1).toNat = some name ∧
        h.monthName config = some name ∧
        h.toString numberToString config =
          numberToString h.day ++ " " ++ name ++ " " ++ numberToString h.year) ∧
    HIJRI_MONTHS "xx" = none ∧
    HIJRI_MONTHS "ar" = some HIJRI_MONTHS.ar ∧
    HIJRI_MONTHS "ru" = some HIJRI_MONTHS.ru := by
  refine ⟨?_, ?_, by decide, by decide, by decide⟩
  · intro hno
    have har : HIJRI_MONTHS "ar" = some HIJRI_MONTHS.ar := by decide
    simp only [HijriDate.toString, HijriDate.monthName, hno, har, Option.bind]
    cases jsIndex HIJRI_MONTHS.ar (h.month - 1) with
    | none => rfl
    | some s =>
      by_cases hs : s = ""
      · simp [jsOr, hs]
      · simp [jsOr, hs]
  · intro table ht
    obtain ⟨name, h1, h2⟩ := monthName_of_table config h m table hm hm1 hm12 ht
    refine ⟨name, h1, h2, ?_⟩
    simp only [HijriDate.toString, h2, valueToString]

theorem toString_month_name_fallback_witness :
    (HijriDate.mk 1445 6 19).month = Double.ofInt 6 ∧ (1 : ℤ) ≤ 6 ∧ (6 : ℤ) ≤ 12 ∧
      HIJRI_MONTHS (hijriDate.config
        (some { Options.empty with hijriLang := JSValue.string "xx" })).hijriLang = none ∧
      (HijriDate.mk 1445 6 19).toString integerDigits
          (hijriDate.config (some { Options.empty with hijriLang := JSValue.string "xx" })) =
        (HijriDate.mk 1445 6 19).toString integerDigits
          { hijriDate.config (some { Options.empty with hijriLang := JSValue.string "xx" }) with
            hijriLang := "ar" } :=
  ⟨Double.ofNat_eq_ofInt 6, by decide, by decide, by decide,
    (toString_month_name_fallback integerDigits
      (hijriDate.config (some { Options.empty with hijriLang := JSValue.string "xx" }))
      (HijriDate.mk 1445 6 19) 6 (Double.ofNat_eq_ofInt 6) (by decide) (by decide)).1
      (by decide)⟩

/-- C14, evaluated on the code: for an options object that supplies none of
the recognised fields (and for the call without argument) the constructed
config has showWeekDay = true, showGregDate = false, weekDayLang = "ar",
hijriLang = "ar", gregLang = "ar", correction = 0, but separator = " - "
(blank, hyphen, blank), not the documented "-". -/
theorem hijriDate_config_of_empty_options :
    hijriDate.config (some Options.empty) =
      { showWeekDay := true, showGregDate := false, separator := " - ", weekDayLang := "ar",
        hijriLang := "ar", gregLang := "ar", correction := 0 } ∧
    hijriDate.config none = hijriDate.config (some Options.empty) ∧
    (hijriDate.config (some Options.empty)).separator ≠ documentedDefaults.separator ∧
    hijriDate.config (some Options.empty) ≠ documentedDefaults := by
  decide!
